import Mathlib

/-!
Shallow embedding of the typedclasses runtime type-validation library
(src/typedclasses/_internal.py and src/typedclasses/core.py).

Values, classes and typing descriptors are modelled by inductive types;
raising TypeError is modelled by the Except monad; setattr effects are
modelled by returning the assigned value (for the constructor, the ordered
list of performed assignments).
-/

/-- Runtime classes that appear in the development.  The subclass relation
is the small fixed hierarchy below (bool derives from int as in Python;
Cat derives from Animal as a sample user hierarchy). -/
inductive PyClass where
  | objectC | noneType | boolC | intC | strC | listC | typeC | genericAliasC | animalC | catC
deriving DecidableEq

/-- Values allowed inside a typing.Literal subscript (ints, strings, bools,
None are the forms the library is exercised with). -/
inductive LitVal where
  | lnone
  | lbool (b : Bool)
  | lint (n : Int)
  | lstr (s : String)
deriving DecidableEq

/-- A declared type descriptor as consumed by apply_attr: a plain concrete
class (typing.get_origin is None), typing.Any, or a subscripted generic
with origin Union, Literal, type, or some other unsupported origin
(e.g. list for typing.List subscripts, whose inner subscript the library
never inspects). -/
inductive PyTy where
  | plain (c : PyClass)
  | anyTy
  | union (args : List PyTy)
  | literal (ls : List LitVal)
  | subtype (c : PyClass)
  | otherOrigin (tag : String)

/-- Runtime values: None, bools, ints, strings, class objects, and typing
descriptor objects (the Literal branch of the source assigns the descriptor
itself to the instance attribute, so descriptors occur as values). -/
inductive PyVal where
  | vnone
  | vbool (b : Bool)
  | vint (n : Int)
  | vstr (s : String)
  | vclass (c : PyClass)
  | vty (t : PyTy)

/-- Method resolution order of each modelled class, defining issubclass. -/
def mro : PyClass → List PyClass
  | .objectC => [.objectC]
  | .noneType => [.noneType, .objectC]
  | .boolC => [.boolC, .intC, .objectC]
  | .intC => [.intC, .objectC]
  | .strC => [.strC, .objectC]
  | .listC => [.listC, .objectC]
  | .typeC => [.typeC, .objectC]
  | .genericAliasC => [.genericAliasC, .objectC]
  | .animalC => [.animalC, .objectC]
  | .catC => [.catC, .animalC, .objectC]

/-- Python issubclass on the modelled hierarchy. -/
def isSubclass (a b : PyClass) : Bool := (mro a).contains b

/-- Python type(v): the runtime class of a value. -/
def classOf : PyVal → PyClass
  | .vnone => .noneType
  | .vbool _ => .boolC
  | .vint _ => .intC
  | .vstr _ => .strC
  | .vclass _ => .typeC
  | .vty _ => .genericAliasC

/-- Structured form of the TypeError messages raised by the library, one
constructor per raise site, carrying exactly the data interpolated into the
message.  isinstanceRaised models the TypeError CPython itself raises when
isinstance is applied to a subscripted generic or typing.Any. -/
inductive TCError where
  | optionalMismatch (owner fname : String) (expected : PyTy) (actual : PyClass)
  | unionMismatch (owner fname : String) (attempted : List PyTy) (actual : PyClass)
  | literalMismatch (owner fname : String) (expected : List LitVal) (actual : PyVal)
  | subtypeMismatch (owner fname : String) (expected : PyClass) (actual : PyVal)
  | plainMismatch (owner fname : String) (expected : PyTy) (actual : PyClass)
  | isinstanceRaised (arg : PyTy)
  | missingParams (owner : String) (names : List String)
  | unexpectedParams (owner : String) (names : List String)

/-- typing.get_origin: None for plain classes and typing.Any, the generic
origin otherwise. -/
def getOrigin : PyTy → Option String
  | .plain _ => none
  | .anyTy => none
  | .union _ => some "Union"
  | .literal _ => some "Literal"
  | .subtype _ => some "type"
  | .otherOrigin tag => some tag

/-- Python isinstance(v, t) where t is a typing descriptor: defined for
plain classes, raising TypeError for subscripted generics and typing.Any
(CPython: Subscripted generics cannot be used with class and instance
checks; typing.Any cannot be used with isinstance). -/
def isinstanceTy (v : PyVal) : PyTy → Except TCError Bool
  | .plain c => .ok (isSubclass (classOf v) c)
  | t => .error (.isinstanceRaised t)

/-- Python identity test (val is lit) between a runtime value and an
interned literal: true only for the same primitive of the same kind, so
1 is not identical to True or to the string form of 1. -/
def litIs : PyVal → LitVal → Bool
  | .vnone, .lnone => true
  | .vbool a, .lbool b => a == b
  | .vint a, .lint b => a == b
  | .vstr a, .lstr b => a == b
  | _, _ => false

mutual

/-- Mirrors apply_from_typing_origin in src/typedclasses/_internal.py.
The union case first tests for the two-element form ending in NoneType
(the surface form of typing.Optional) and then runs a direct instance
check on the first member; every other union iterates its members via
unionLoop.  The literal case assigns the whole descriptor tp, exactly as
the source line setattr(tc, name, tp) does.  The plain and anyTy cases are
unreachable from applyAttr (their origin is None) and mirror the final
else branch that assigns unconditionally. -/
def applyFromTypingOrigin (owner fname : String) (v : PyVal) : PyTy → Except TCError PyVal
  | .union args =>
    match args with
    | [a, .plain .noneType] =>
      match v with
      | .vnone => .ok .vnone
      | _ =>
        match isinstanceTy v a with
        | .ok true => .ok v
        | .ok false => .error (.optionalMismatch owner fname a (classOf v))
        | .error e => .error e
    | _ => unionLoop owner fname v args args
  | .literal ls =>
    if ls.any (fun a => litIs v a) then .ok (.vty (.literal ls))
    else .error (.literalMismatch owner fname ls v)
  | .subtype c =>
    match v with
    | .vclass d =>
      if isSubclass d c then .ok (.vclass d)
      else .error (.subtypeMismatch owner fname c (.vclass d))
    | w => .error (.subtypeMismatch owner fname c w)
  | .otherOrigin _ => .ok v
  | .plain _ => .ok v
  | .anyTy => .ok v

/-- The for-loop of the general union branch.  A member with a generic
origin is evaluated recursively inside try/except TypeError: success
returns, failure moves to the next member.  A member without a generic
origin goes through a bare isinstance call whose own TypeError (for
typing.Any members) is outside the try block and propagates.  Exhausting
the loop raises the aggregate error naming all members (allArgs) and the
runtime class of v. -/
def unionLoop (owner fname : String) (v : PyVal) (allArgs : List PyTy) : List PyTy → Except TCError PyVal
  | [] => .error (.unionMismatch owner fname allArgs (classOf v))
  | t :: rest =>
    match getOrigin t with
    | some _ =>
      match applyFromTypingOrigin owner fname v t with
      | .ok w => .ok w
      | .error _ => unionLoop owner fname v allArgs rest
    | none =>
      match isinstanceTy v t with
      | .ok true => .ok v
      | .ok false => unionLoop owner fname v allArgs rest
      | .error e => .error e

end

/-- Mirrors apply_attr in src/typedclasses/_internal.py: descriptors with a
generic origin are dispatched to apply_from_typing_origin; typing.Any is
assigned without check; a plain class runs isinstance and either assigns
or raises. -/
def applyAttr (owner fname : String) (v : PyVal) (tp : PyTy) : Except TCError PyVal :=
  match getOrigin tp with
  | some _ => applyFromTypingOrigin owner fname v tp
  | none =>
    match tp with
    | .anyTy => .ok v
    | _ =>
      match isinstanceTy v tp with
      | .ok true => .ok v
      | .ok false => .error (.plainMismatch owner fname tp (classOf v))
      | .error e => .error e

/-- Removal of a key from an association list, modelling dict.pop on the
keyword-argument dict (keys are unique, so filtering equals popping). -/
def removeKey (ps : List (String × PyVal)) (k : String) : List (String × PyVal) :=
  ps.filter (fun p => !(p.1 == k))

/-- The first loop of prepare_typed_instance: iterate required parameters
in declaration order; absent names are appended to the missing list and the
loop continues; present names are validated immediately (a TypeError from
apply_attr propagates at once) and on success the assignment is recorded
and the key is popped from the working dict. -/
def requiredLoop (owner : String) :
    List (String × PyTy) → List (String × PyVal) → List (String × PyVal) → List String →
    Except TCError (List (String × PyVal) × List (String × PyVal) × List String)
  | [], ps, asg, miss => .ok (ps, asg, miss)
  | (n, t) :: rest, ps, asg, miss =>
    match List.lookup n ps with
    | none => requiredLoop owner rest ps asg (miss ++ [n])
    | some v =>
      match applyAttr owner n v t with
      | .error e => .error e
      | .ok w => requiredLoop owner rest (removeKey ps n) (asg ++ [(n, w)]) miss

/-- The second loop of prepare_typed_instance: optional parameters present
in the working dict are validated and assigned; absent ones are skipped. -/
def optionalLoop (owner : String) :
    List (String × PyTy) → List (String × PyVal) → List (String × PyVal) →
    Except TCError (List (String × PyVal) × List (String × PyVal))
  | [], ps, asg => .ok (ps, asg)
  | (n, t) :: rest, ps, asg =>
    match List.lookup n ps with
    | none => optionalLoop owner rest ps asg
    | some v =>
      match applyAttr owner n v t with
      | .error e => .error e
      | .ok w => optionalLoop owner rest (removeKey ps n) (asg ++ [(n, w)])

/-- Per-class metadata stored as cls.__tc_options__ by __init_subclass__ in
src/typedclasses/core.py.  hasRepr records whether the generated __repr__
was attached (the repr subclassing flag). -/
structure TCOptions where
  requiredParams : List (String × PyTy)
  optionalParams : List (String × PyTy)
  ignoreExtra : Bool
  params : List String
  hasRepr : Bool

/-- Mirrors prepare_typed_instance in src/typedclasses/_internal.py: the
required pass runs first; only after it completes is the aggregate
missing-parameters error raised; then the optional pass; finally leftover
keyword arguments raise the unexpected-parameters error unless ignore_extra
is set.  The result is the ordered list of performed attribute
assignments. -/
def prepareTypedInstance (owner : String) (opts : TCOptions) (kwargs : List (String × PyVal)) :
    Except TCError (List (String × PyVal)) :=
  match requiredLoop owner opts.requiredParams kwargs [] [] with
  | .error e => .error e
  | .ok (ps1, asg1, miss) =>
    if miss.isEmpty then
      match optionalLoop owner opts.optionalParams ps1 asg1 with
      | .error e => .error e
      | .ok (ps2, asg2) =>
        if ps2.isEmpty then .ok asg2
        else if opts.ignoreExtra then .ok asg2
        else .error (.unexpectedParams owner (ps2.map (fun p => p.1)))
    else .error (.missingParams owner miss)

/-- Python dict assignment d[k] = v on an association list: an existing key
keeps its position and gets the new value, a new key is appended at the
end (insertion order, as Python dicts preserve it). -/
def dictSet {α : Type} : List (String × α) → String → α → List (String × α)
  | [], k, v => [(k, v)]
  | p :: rest, k, v => if p.1 == k then (k, v) :: rest else p :: dictSet rest k v

/-- Python dict.pop(k) guarded by a membership test: removes the key if
present. -/
def dictRemove {α : Type} (xs : List (String × α)) (k : String) : List (String × α) :=
  xs.filter (fun p => !(p.1 == k))

/-- Python str.startswith, computed on the underlying character lists. -/
def pyStartsWith (s p : String) : Bool := p.data.isPrefixOf s.data

/-- Python str.endswith, computed on the underlying character lists. -/
def pyEndsWith (s p : String) : Bool := p.data.reverse.isPrefixOf s.data.reverse

/-- The field-classification loop of __init_subclass__ in
src/typedclasses/core.py: names starting with a double underscore are
skipped; names starting with an underscore are skipped when ignore_internal
holds; a name present in the class body (members, i.e. vars(cls)) is
classified optional after being popped from required; otherwise it is
classified required after being popped from optional; every classified name
is appended to the params list in declaration order. -/
def registerLoop (ii : Bool) (members : List String) :
    List (String × PyTy) → List (String × PyTy) → List (String × PyTy) → List String →
    List (String × PyTy) × List (String × PyTy) × List String
  | [], opt, req, ps => (opt, req, ps)
  | (name, tp) :: rest, opt, req, ps =>
    if pyStartsWith name "__" then registerLoop ii members rest opt req ps
    else if pyStartsWith name "_" && ii then registerLoop ii members rest opt req ps
    else if members.contains name then
      registerLoop ii members rest (dictSet opt name tp) (dictRemove req name) (ps ++ [name])
    else
      registerLoop ii members rest (dictRemove opt name) (dictSet req name tp) (ps ++ [name])

/-- Mirrors __init_subclass__ in src/typedclasses/core.py: a fresh options
dict is created for the class being defined, so both buckets start empty;
annos is the ordered name-to-descriptor mapping typing.get_type_hints
returns (own and inherited declared fields), members the names assigned in
this class body (vars(cls)). -/
def registerClass (ii ie gr : Bool) (annos : List (String × PyTy)) (members : List String) :
    TCOptions :=
  let r := registerLoop ii members annos [] [] []
  { requiredParams := r.2.1, optionalParams := r.1, ignoreExtra := ie, params := r.2.2,
    hasRepr := gr }

/-- The per-type metadata store: class name to its cls.__tc_options__. -/
abbrev Registry : Type := List (String × TCOptions)

/-- Defining a typed subclass sets cls.__tc_options__ on that class alone:
only the entry of the class being defined is written. -/
def initSubclass (reg : Registry) (clsName : String) (ii ie gr : Bool)
    (annos : List (String × PyTy)) (members : List String) : Registry :=
  dictSet reg clsName (registerClass ii ie gr annos members)

/-- Test used by the model of typing.Optional construction. -/
def isNoneTy : PyTy → Bool
  | .plain .noneType => true
  | _ => false

/-- typing.Optional[C] as typing constructs it: Union[C, None], with a
nested union flattened and NoneType not duplicated, and Optional of
NoneType collapsing to NoneType itself. -/
def pyOptional (c : PyTy) : PyTy :=
  match c with
  | .union args => if args.any isNoneTy then .union args else .union (args ++ [.plain .noneType])
  | .plain .noneType => .plain .noneType
  | _ => .union [c, .plain .noneType]

/-- Python repr of a literal subscript member. -/
def litRepr : LitVal → String
  | .lnone => "None"
  | .lbool b => if b then "True" else "False"
  | .lint n => toString n
  | .lstr s => "\x27" ++ s ++ "\x27"

/-- Comma-joined reprs of literal subscript members. -/
def litReprList : List LitVal → String
  | [] => ""
  | [a] => litRepr a
  | a :: rest => litRepr a ++ ", " ++ litReprList rest

/-- Printable name of a modelled class. -/
def className : PyClass → String
  | .objectC => "object"
  | .noneType => "NoneType"
  | .boolC => "bool"
  | .intC => "int"
  | .strC => "str"
  | .listC => "list"
  | .typeC => "type"
  | .genericAliasC => "_GenericAlias"
  | .animalC => "Animal"
  | .catC => "Cat"

mutual

/-- Python repr of a typing descriptor. -/
def tyRepr : PyTy → String
  | .plain c => "<class \x27" ++ className c ++ "\x27>"
  | .anyTy => "typing.Any"
  | .union args => "typing.Union[" ++ tyReprList args ++ "]"
  | .literal ls => "typing.Literal[" ++ litReprList ls ++ "]"
  | .subtype c => "typing.Type[" ++ className c ++ "]"
  | .otherOrigin tag => "typing." ++ tag

/-- Comma-joined reprs of union members. -/
def tyReprList : List PyTy → String
  | [] => ""
  | [t] => tyRepr t
  | t :: rest => tyRepr t ++ ", " ++ tyReprList rest

end

/-- Python repr of a runtime value, as interpolated by the generated
textual representation. -/
def pyReprV : PyVal → String
  | .vnone => "None"
  | .vbool b => if b then "True" else "False"
  | .vint n => toString n
  | .vstr s => "\x27" ++ s ++ "\x27"
  | .vclass c => "<class \x27" ++ className c ++ "\x27>"
  | .vty t => tyRepr t

/-- Python attribute lookup on an instance: the instance dict (the
assignments performed during construction) first, then the class body
defaults inherited through normal attribute lookup. -/
def getattrTC (attrs defaults : List (String × PyVal)) (k : String) : Option PyVal :=
  match List.lookup k attrs with
  | some v => some v
  | none => List.lookup k defaults

/-- Mirrors _typed_class_repr in src/typedclasses/core.py: the class name
followed by field=repr(value) pairs for every name in the stored params
list, in that order; none when some attribute lookup fails. -/
def typedClassRepr (clsName : String) (params : List String)
    (attrs defaults : List (String × PyVal)) : Option String :=
  match params.mapM (fun k => (getattrTC attrs defaults k).map (fun v => k ++ "=" ++ pyReprV v)) with
  | some parts => some (clsName ++ "(" ++ String.intercalate ", " parts ++ ")")
  | none => none

/-- Outcome of one iteration of the general union loop for member t:
true when the branch accepts v (a generic-origin member accepts when its
recursive evaluation succeeds; a plain member accepts when isinstance
holds; a member whose bare isinstance raises does not accept). -/
def branchOk (owner fname : String) (v : PyVal) (t : PyTy) : Bool :=
  match getOrigin t with
  | some _ =>
    match applyFromTypingOrigin owner fname v t with
    | .ok _ => true
    | .error _ => false
  | none =>
    match isinstanceTy v t with
    | .ok b => b
    | .error _ => false

/-- The value a union member assigns when it accepts v: the recursive
result for a generic-origin member (the literal case assigns the
descriptor), v itself for a plain member. -/
def branchVal (owner fname : String) (v : PyVal) (t : PyTy) : PyVal :=
  match getOrigin t with
  | some _ =>
    match applyFromTypingOrigin owner fname v t with
    | .ok w => w
    | .error _ => v
  | none => v

/-- Success test on an Except result, modelling that no exception was
raised. -/
def isOkE {ε α : Type} : Except ε α → Bool
  | .ok _ => true
  | .error _ => false

/-- A required or optional parameter is unproblematic for a given argument
dict when it is either absent or its supplied value passes apply_attr. -/
def suppliedOk (owner : String) (kwargs : List (String × PyVal)) (p : String × PyTy) : Bool :=
  match List.lookup p.1 kwargs with
  | some v => isOkE (applyAttr owner p.1 v p.2)
  | none => true

lemma lookup_filterKeys (f : String → Bool) (k : String) :
    ∀ ps : List (String × PyVal),
      List.lookup k (ps.filter (fun q => f q.1)) = if f k then List.lookup k ps else none
  | [] => by simp
  | (m, v) :: ps => by
    by_cases hk : f k
    · by_cases hm : k = m
      · subst hm
        simp [List.lookup, hk, List.filter]
      · have hbe : (k == m) = false := by simp [hm]
        by_cases hfm : f m
        · simp only [List.filter, hfm, List.lookup, hbe]
          simpa [hk] using lookup_filterKeys f k ps
        · simp only [List.filter, hfm]
          simpa [hk, List.lookup, hbe] using lookup_filterKeys f k ps
    · by_cases hfm : f m
      · have hbe : (k == m) = false := by
          by_contra hc
          simp only [Bool.not_eq_false, beq_iff_eq] at hc
          subst hc
          exact hk hfm
        simp only [List.filter, hfm, List.lookup, hbe]
        simpa [hk] using lookup_filterKeys f k ps
      · simp only [List.filter, hfm]
        simpa [hk] using lookup_filterKeys f k ps

lemma lookup_removeKey (ps : List (String × PyVal)) (k m : String) :
    List.lookup m (removeKey ps k) = if m = k then none else List.lookup m ps := by
  have h := lookup_filterKeys (fun x => !(x == k)) m ps
  by_cases hm : m = k
  · subst hm
    simpa [removeKey] using h
  · have : (!(m == k)) = true := by simp [hm]
    simpa [removeKey, this, hm] using h

lemma lookup_eq_none_keys (k : String) :
    ∀ ps : List (String × PyVal), List.lookup k ps = none → ∀ q ∈ ps, q.1 ≠ k
  | [], _, q, hq => absurd hq (List.not_mem_nil q)
  | (m, v) :: ps, h, q, hq => by
    rcases List.mem_cons.mp hq with h1 | h1
    · subst h1
      intro hk
      subst hk
      simp [List.lookup] at h
    · by_cases hk : k = m
      · subst hk
        simp [List.lookup] at h
      · have hbe : (k == m) = false := by simp [hk]
        simp only [List.lookup, hbe] at h
        exact lookup_eq_none_keys k ps h q h1

lemma branchOk_anyTy (owner fname : String) (v : PyVal) :
    branchOk owner fname v PyTy.anyTy = false := rfl

lemma unionLoop_nil (owner fname : String) (v : PyVal) (allArgs : List PyTy) :
    unionLoop owner fname v allArgs [] = .error (.unionMismatch owner fname allArgs (classOf v)) :=
  rfl

lemma unionLoop_cons (owner fname : String) (v : PyVal) (allArgs : List PyTy)
    (t : PyTy) (rest : List PyTy) (ht : t ≠ PyTy.anyTy) :
    unionLoop owner fname v allArgs (t :: rest) =
      if branchOk owner fname v t then .ok (branchVal owner fname v t)
      else unionLoop owner fname v allArgs rest := by
  cases t with
  | anyTy => exact absurd rfl ht
  | plain c =>
    simp only [unionLoop, getOrigin, isinstanceTy, branchOk, branchVal]
    cases h : isSubclass (classOf v) c <;> simp
  | union args =>
    simp only [unionLoop, getOrigin, branchOk, branchVal]
    cases h : applyFromTypingOrigin owner fname v (.union args) <;> simp [h]
  | literal ls =>
    simp only [unionLoop, getOrigin, branchOk, branchVal]
    cases h : applyFromTypingOrigin owner fname v (.literal ls) <;> simp [h]
  | subtype c =>
    simp only [unionLoop, getOrigin, branchOk, branchVal]
    cases h : applyFromTypingOrigin owner fname v (.subtype c) <;> simp [h]
  | otherOrigin tag =>
    simp only [unionLoop, getOrigin, branchOk, branchVal]
    cases h : applyFromTypingOrigin owner fname v (.otherOrigin tag) <;> simp [h]

lemma unionLoop_reject (owner fname : String) (v : PyVal) (allArgs : List PyTy) :
    ∀ rem : List PyTy, (∀ t ∈ rem, t ≠ PyTy.anyTy) →
      (∀ t ∈ rem, branchOk owner fname v t = false) →
      unionLoop owner fname v allArgs rem
        = .error (.unionMismatch owner fname allArgs (classOf v)) := by
  intro rem
  induction rem with
  | nil => intro _ _; rfl
  | cons t rest ih =>
    intro ha hb
    rw [unionLoop_cons owner fname v allArgs t rest (ha t (List.mem_cons_self t rest)),
        hb t (List.mem_cons_self t rest)]
    simp only [if_neg Bool.false_ne_true]
    exact ih (fun u hu => ha u (List.mem_cons_of_mem t hu))
      (fun u hu => hb u (List.mem_cons_of_mem t hu))

lemma unionLoop_firstOk (owner fname : String) (v : PyVal) (allArgs : List PyTy) :
    ∀ (pre : List PyTy) (t : PyTy) (post : List PyTy),
      (∀ u ∈ pre, u ≠ PyTy.anyTy) →
      (∀ u ∈ pre, branchOk owner fname v u = false) →
      branchOk owner fname v t = true →
      unionLoop owner fname v allArgs (pre ++ t :: post)
        = .ok (branchVal owner fname v t) := by
  intro pre
  induction pre with
  | nil =>
    intro t post _ _ hok
    have ht : t ≠ PyTy.anyTy := by
      intro h
      subst h
      rw [branchOk_anyTy] at hok
      exact Bool.false_ne_true hok
    rw [List.nil_append, unionLoop_cons owner fname v allArgs t post ht, hok]
    simp
  | cons u pre' ih =>
    intro t post ha hb hok
    rw [List.cons_append,
        unionLoop_cons owner fname v allArgs u (pre' ++ t :: post) (ha u (List.mem_cons_self u pre')),
        hb u (List.mem_cons_self u pre')]
    simp only [if_neg Bool.false_ne_true]
    exact ih t post (fun x hx => ha x (List.mem_cons_of_mem u hx))
      (fun x hx => hb x (List.mem_cons_of_mem u hx)) hok

lemma unionLoop_reachOk (owner fname : String) (v : PyVal) (allArgs : List PyTy) :
    ∀ (pre : List PyTy) (t : PyTy) (post : List PyTy),
      (∀ u ∈ pre, u ≠ PyTy.anyTy) →
      branchOk owner fname v t = true →
      ∃ w, unionLoop owner fname v allArgs (pre ++ t :: post) = .ok w := by
  intro pre
  induction pre with
  | nil =>
    intro t post _ hok
    exact ⟨branchVal owner fname v t,
      unionLoop_firstOk owner fname v allArgs [] t post (by simp) (by simp) hok⟩
  | cons u pre' ih =>
    intro t post ha hok
    rw [List.cons_append,
        unionLoop_cons owner fname v allArgs u (pre' ++ t :: post) (ha u (List.mem_cons_self u pre'))]
    cases hu : branchOk owner fname v u with
    | true => exact ⟨branchVal owner fname v u, by simp⟩
    | false =>
      simp only [if_neg Bool.false_ne_true]
      exact ih t post (fun x hx => ha x (List.mem_cons_of_mem u hx)) hok

lemma applyFTO_union_general (owner fname : String) (v : PyVal) (a b : PyTy) (rest : List PyTy)
    (h : rest = [] → b ≠ PyTy.plain PyClass.noneType) :
    applyFromTypingOrigin owner fname v (.union (a :: b :: rest))
      = unionLoop owner fname v (a :: b :: rest) (a :: b :: rest) := by
  cases rest with
  | cons r rs =>
    cases b with
    | plain c => cases c <;> rfl
    | anyTy => rfl
    | union args => rfl
    | literal ls => rfl
    | subtype c => rfl
    | otherOrigin tag => rfl
  | nil =>
    have hb : b ≠ PyTy.plain PyClass.noneType := h rfl
    cases b with
    | plain c =>
      cases c with
      | noneType => exact absurd rfl hb
      | objectC => rfl
      | boolC => rfl
      | intC => rfl
      | strC => rfl
      | listC => rfl
      | typeC => rfl
      | genericAliasC => rfl
      | animalC => rfl
      | catC => rfl
    | anyTy => rfl
    | union args => rfl
    | literal ls => rfl
    | subtype c => rfl
    | otherOrigin tag => rfl

lemma lookup_removeKey_ne (ps : List (String × PyVal)) (k m : String) (h : m ≠ k) :
    List.lookup m (removeKey ps k) = List.lookup m ps := by
  rw [lookup_removeKey]
  simp [h]

lemma suppliedOk_removeKey (owner : String) (ps : List (String × PyVal)) (n : String)
    (p : String × PyTy) (h : p.1 ≠ n) :
    suppliedOk owner (removeKey ps n) p = suppliedOk owner ps p := by
  simp only [suppliedOk, lookup_removeKey_ne ps n p.1 h]

lemma contains_cons_not (restN : List String) (n x : String) (hx : x ≠ n) :
    (n :: restN).contains x = restN.contains x := by
  simp [List.contains_cons, hx]

lemma requiredLoop_ok (owner : String) :
    ∀ (reqs : List (String × PyTy)) (ps asg : List (String × PyVal)) (miss : List String),
      (reqs.map Prod.fst).Nodup →
      (∀ p ∈ reqs, suppliedOk owner ps p = true) →
      ∃ asg2,
        requiredLoop owner reqs ps asg miss =
          .ok (ps.filter (fun q => !((reqs.map Prod.fst).contains q.1)),
               asg ++ asg2,
               miss ++ (reqs.filter (fun p => (List.lookup p.1 ps).isNone)).map Prod.fst) ∧
        asg2.map Prod.fst = (reqs.filter (fun p => (List.lookup p.1 ps).isSome)).map Prod.fst := by
  intro reqs
  induction reqs with
  | nil =>
    intro ps asg miss _ _
    refine ⟨[], ?_, rfl⟩
    simp [requiredLoop]
  | cons head rest ih =>
    obtain ⟨n, t⟩ := head
    intro ps asg miss hnd hok
    have hnd2 : (n :: rest.map Prod.fst).Nodup := by simpa using hnd
    have hnd' : (rest.map Prod.fst).Nodup := (List.nodup_cons.mp hnd2).2
    have hnmem : n ∉ rest.map Prod.fst := (List.nodup_cons.mp hnd2).1
    cases hl : List.lookup n ps with
    | none =>
      have hstep : requiredLoop owner ((n, t) :: rest) ps asg miss
          = requiredLoop owner rest ps asg (miss ++ [n]) := by
        simp [requiredLoop, hl]
      obtain ⟨asg2, heq, hnames⟩ := ih ps asg (miss ++ [n]) hnd'
        (fun p hp => hok p (List.mem_cons_of_mem _ hp))
      refine ⟨asg2, ?_, ?_⟩
      · rw [hstep, heq]
        have hfilter : ps.filter (fun q => !((rest.map Prod.fst).contains q.1))
            = ps.filter (fun q => !(((( n, t) :: rest).map Prod.fst).contains q.1)) := by
          apply List.filter_congr
          intro q hq
          have hq1 : q.1 ≠ n := lookup_eq_none_keys n ps hl q hq
          simp only [List.map_cons]
          rw [contains_cons_not (rest.map Prod.fst) n q.1 hq1]
        have hmiss : (miss ++ [n]) ++ (rest.filter (fun p => (List.lookup p.1 ps).isNone)).map Prod.fst
            = miss ++ ((((n, t) :: rest).filter (fun p => (List.lookup p.1 ps).isNone)).map Prod.fst) := by
          rw [List.append_assoc]
          congr 1
          simp [List.filter_cons, hl]
        rw [hfilter, hmiss]
      · rw [hnames]
        simp [List.filter_cons, hl]
    | some v =>
      have hsup : isOkE (applyAttr owner n v t) = true := by
        simpa [suppliedOk, hl] using hok (n, t) (List.mem_cons_self _ _)
      cases haa : applyAttr owner n v t with
      | error e =>
        rw [haa] at hsup
        simp [isOkE] at hsup
      | ok w =>
        have hstep : requiredLoop owner ((n, t) :: rest) ps asg miss
            = requiredLoop owner rest (removeKey ps n) (asg ++ [(n, w)]) miss := by
          simp [requiredLoop, hl, haa]
        have hok' : ∀ p ∈ rest, suppliedOk owner (removeKey ps n) p = true := by
          intro p hp
          have hp1 : p.1 ≠ n := by
            intro hc
            exact hnmem (hc ▸ List.mem_map_of_mem Prod.fst hp)
          rw [suppliedOk_removeKey owner ps n p hp1]
          exact hok p (List.mem_cons_of_mem _ hp)
        obtain ⟨asg2, heq, hnames⟩ := ih (removeKey ps n) (asg ++ [(n, w)]) miss hnd' hok'
        refine ⟨(n, w) :: asg2, ?_, ?_⟩
        · rw [hstep, heq]
          have hfilter : (removeKey ps n).filter (fun q => !((rest.map Prod.fst).contains q.1))
              = ps.filter (fun q => !(((( n, t) :: rest).map Prod.fst).contains q.1)) := by
            rw [removeKey, List.filter_filter]
            apply List.filter_congr
            intro q _
            by_cases hq1 : q.1 = n
            · simp [hq1]
            · simp only [List.map_cons]
              rw [contains_cons_not (rest.map Prod.fst) n q.1 hq1]
              have : (q.1 == n) = false := by simp [hq1]
              simp [this]
          have hmissmap : (rest.filter (fun p => (List.lookup p.1 (removeKey ps n)).isNone)).map Prod.fst
              = (rest.filter (fun p => (List.lookup p.1 ps).isNone)).map Prod.fst := by
            congr 1
            apply List.filter_congr
            intro p hp
            have hp1 : p.1 ≠ n := by
              intro hc
              exact hnmem (hc ▸ List.mem_map_of_mem Prod.fst hp)
            rw [lookup_removeKey_ne ps n p.1 hp1]
          rw [hfilter, hmissmap]
          have hmiss2 : ((( n, t) :: rest).filter (fun p => (List.lookup p.1 ps).isNone)).map Prod.fst
              = (rest.filter (fun p => (List.lookup p.1 ps).isNone)).map Prod.fst := by
            simp [List.filter_cons, hl]
          rw [hmiss2, List.append_assoc]
          rfl
        · simp only [List.map_cons, hnames]
          have hnames2 : (rest.filter (fun p => (List.lookup p.1 (removeKey ps n)).isSome)).map Prod.fst
              = (rest.filter (fun p => (List.lookup p.1 ps).isSome)).map Prod.fst := by
            congr 1
            apply List.filter_congr
            intro p hp
            have hp1 : p.1 ≠ n := by
              intro hc
              exact hnmem (hc ▸ List.mem_map_of_mem Prod.fst hp)
            rw [lookup_removeKey_ne ps n p.1 hp1]
          rw [hnames2]
          simp [List.filter_cons, hl]

lemma requiredLoop_err (owner : String) :
    ∀ (pre : List (String × PyTy)) (n : String) (t : PyTy) (post : List (String × PyTy))
      (ps asg : List (String × PyVal)) (miss : List String) (v : PyVal) (e : TCError),
      ((pre ++ (n, t) :: post).map Prod.fst).Nodup →
      (∀ p ∈ pre, suppliedOk owner ps p = true) →
      List.lookup n ps = some v →
      applyAttr owner n v t = .error e →
      requiredLoop owner (pre ++ (n, t) :: post) ps asg miss = .error e := by
  intro pre
  induction pre with
  | nil =>
    intro n t post ps asg miss v e _ _ hl haa
    simp [requiredLoop, hl, haa]
  | cons head pre' ih =>
    obtain ⟨m, s⟩ := head
    intro n t post ps asg miss v e hnd hok hl haa
    have hnd2 : (m :: (pre' ++ (n, t) :: post).map Prod.fst).Nodup := by simpa using hnd
    have hmmem : m ∉ (pre' ++ (n, t) :: post).map Prod.fst := (List.nodup_cons.mp hnd2).1
    have hnd' : ((pre' ++ (n, t) :: post).map Prod.fst).Nodup := (List.nodup_cons.mp hnd2).2
    have hmn : n ≠ m := by
      intro hc
      subst hc
      exact hmmem (by simp)
    cases hlm : List.lookup m ps with
    | none =>
      have hstep : requiredLoop owner ((m, s) :: (pre' ++ (n, t) :: post)) ps asg miss
          = requiredLoop owner (pre' ++ (n, t) :: post) ps asg (miss ++ [m]) := by
        simp [requiredLoop, hlm]
      rw [List.cons_append, hstep]
      exact ih n t post ps asg (miss ++ [m]) v e hnd'
        (fun p hp => hok p (List.mem_cons_of_mem _ hp)) hl haa
    | some u =>
      have hsup : isOkE (applyAttr owner m u s) = true := by
        simpa [suppliedOk, hlm] using hok (m, s) (List.mem_cons_self _ _)
      cases hmm : applyAttr owner m u s with
      | error e2 =>
        rw [hmm] at hsup
        simp [isOkE] at hsup
      | ok w =>
        have hstep : requiredLoop owner ((m, s) :: (pre' ++ (n, t) :: post)) ps asg miss
            = requiredLoop owner (pre' ++ (n, t) :: post) (removeKey ps m) (asg ++ [(m, w)]) miss := by
          simp [requiredLoop, hlm, hmm]
        rw [List.cons_append, hstep]
        refine ih n t post (removeKey ps m) (asg ++ [(m, w)]) miss v e hnd' ?_ ?_ haa
        · intro p hp
          have hp1 : p.1 ≠ m := by
            intro hc
            refine hmmem ?_
            rw [← hc]
            exact List.mem_map_of_mem Prod.fst (by simp [hp])
          rw [suppliedOk_removeKey owner ps m p hp1]
          exact hok p (List.mem_cons_of_mem _ hp)
        · rw [lookup_removeKey_ne ps m n hmn]
          exact hl

lemma optionalLoop_ok (owner : String) :
    ∀ (opts : List (String × PyTy)) (ps asg : List (String × PyVal)),
      (opts.map Prod.fst).Nodup →
      (∀ p ∈ opts, suppliedOk owner ps p = true) →
      ∃ asg2,
        optionalLoop owner opts ps asg =
          .ok (ps.filter (fun q => !((opts.map Prod.fst).contains q.1)), asg ++ asg2) ∧
        asg2.map Prod.fst = (opts.filter (fun p => (List.lookup p.1 ps).isSome)).map Prod.fst := by
  intro opts
  induction opts with
  | nil =>
    intro ps asg _ _
    refine ⟨[], ?_, rfl⟩
    simp [optionalLoop]
  | cons head rest ih =>
    obtain ⟨n, t⟩ := head
    intro ps asg hnd hok
    have hnd2 : (n :: rest.map Prod.fst).Nodup := by simpa using hnd
    have hnd' : (rest.map Prod.fst).Nodup := (List.nodup_cons.mp hnd2).2
    have hnmem : n ∉ rest.map Prod.fst := (List.nodup_cons.mp hnd2).1
    cases hl : List.lookup n ps with
    | none =>
      have hstep : optionalLoop owner ((n, t) :: rest) ps asg
          = optionalLoop owner rest ps asg := by
        simp [optionalLoop, hl]
      obtain ⟨asg2, heq, hnames⟩ := ih ps asg hnd'
        (fun p hp => hok p (List.mem_cons_of_mem _ hp))
      refine ⟨asg2, ?_, ?_⟩
      · rw [hstep, heq]
        have hfilter : ps.filter (fun q => !((rest.map Prod.fst).contains q.1))
            = ps.filter (fun q => !(((( n, t) :: rest).map Prod.fst).contains q.1)) := by
          apply List.filter_congr
          intro q hq
          have hq1 : q.1 ≠ n := lookup_eq_none_keys n ps hl q hq
          simp only [List.map_cons]
          rw [contains_cons_not (rest.map Prod.fst) n q.1 hq1]
        rw [hfilter]
      · rw [hnames]
        simp [List.filter_cons, hl]
    | some v =>
      have hsup : isOkE (applyAttr owner n v t) = true := by
        simpa [suppliedOk, hl] using hok (n, t) (List.mem_cons_self _ _)
      cases haa : applyAttr owner n v t with
      | error e =>
        rw [haa] at hsup
        simp [isOkE] at hsup
      | ok w =>
        have hstep : optionalLoop owner ((n, t) :: rest) ps asg
            = optionalLoop owner rest (removeKey ps n) (asg ++ [(n, w)]) := by
          simp [optionalLoop, hl, haa]
        have hok' : ∀ p ∈ rest, suppliedOk owner (removeKey ps n) p = true := by
          intro p hp
          have hp1 : p.1 ≠ n := by
            intro hc
            exact hnmem (hc ▸ List.mem_map_of_mem Prod.fst hp)
          rw [suppliedOk_removeKey owner ps n p hp1]
          exact hok p (List.mem_cons_of_mem _ hp)
        obtain ⟨asg2, heq, hnames⟩ := ih (removeKey ps n) (asg ++ [(n, w)]) hnd' hok'
        refine ⟨(n, w) :: asg2, ?_, ?_⟩
        · rw [hstep, heq]
          have hfilter : (removeKey ps n).filter (fun q => !((rest.map Prod.fst).contains q.1))
              = ps.filter (fun q => !(((( n, t) :: rest).map Prod.fst).contains q.1)) := by
            rw [removeKey, List.filter_filter]
            apply List.filter_congr
            intro q _
            by_cases hq1 : q.1 = n
            · simp [hq1]
            · simp only [List.map_cons]
              rw [contains_cons_not (rest.map Prod.fst) n q.1 hq1]
              have : (q.1 == n) = false := by simp [hq1]
              simp [this]
          rw [hfilter, List.append_assoc]
          rfl
        · simp only [List.map_cons, hnames]
          have hnames2 : (rest.filter (fun p => (List.lookup p.1 (removeKey ps n)).isSome)).map Prod.fst
              = (rest.filter (fun p => (List.lookup p.1 ps).isSome)).map Prod.fst := by
            congr 1
            apply List.filter_congr
            intro p hp
            have hp1 : p.1 ≠ n := by
              intro hc
              exact hnmem (hc ▸ List.mem_map_of_mem Prod.fst hp)
            rw [lookup_removeKey_ne ps n p.1 hp1]
          rw [hnames2]
          simp [List.filter_cons, hl]

lemma mem_dictSet_self {α : Type} (k : String) (v : α) :
    ∀ xs : List (String × α), (k, v) ∈ dictSet xs k v := by
  intro xs
  induction xs with
  | nil => simp [dictSet]
  | cons p rest ih =>
    by_cases hp : (p.1 == k)
    · rw [dictSet, if_pos hp]
      exact List.mem_cons_self _ _
    · rw [dictSet, if_neg hp]
      exact List.mem_cons_of_mem p ih

lemma mem_dictSet_ne {α : Type} (k m : String) (v s : α) (hmk : m ≠ k) :
    ∀ xs : List (String × α), ((m, s) ∈ dictSet xs k v ↔ (m, s) ∈ xs) := by
  intro xs
  induction xs with
  | nil =>
    simp only [dictSet, List.mem_singleton, List.not_mem_nil, iff_false]
    intro hc
    exact hmk (congrArg Prod.fst hc)
  | cons p rest ih =>
    by_cases hp : (p.1 == k)
    · have hp1 : p.1 = k := by simpa using hp
      rw [dictSet, if_pos hp]
      simp only [List.mem_cons]
      constructor
      · rintro (h | h)
        · exact absurd (congrArg Prod.fst h) hmk
        · exact Or.inr h
      · rintro (h | h)
        · exfalso
          apply hmk
          have h2 : m = p.1 := by simpa using congrArg Prod.fst h
          exact h2.trans hp1
        · exact Or.inr h
    · rw [dictSet, if_neg hp]
      simp only [List.mem_cons, ih]

lemma not_mem_keys_dictRemove {α : Type} (k : String) :
    ∀ xs : List (String × α), k ∉ (dictRemove xs k).map Prod.fst := by
  intro xs hmem
  obtain ⟨p, hp, hpe⟩ := List.mem_map.mp hmem
  have := List.of_mem_filter hp
  rw [hpe] at this
  simp at this

lemma mem_dictRemove_ne {α : Type} (k m : String) (s : α) (hmk : m ≠ k) :
    ∀ xs : List (String × α), ((m, s) ∈ dictRemove xs k ↔ (m, s) ∈ xs) := by
  intro xs
  constructor
  · exact fun h => List.mem_of_mem_filter h
  · intro h
    refine List.mem_filter.mpr ⟨h, ?_⟩
    simp [hmk]

lemma mem_keys_dictSet {α : Type} (k f : String) (v : α) :
    ∀ xs : List (String × α),
      (f ∈ (dictSet xs k v).map Prod.fst ↔ f ∈ xs.map Prod.fst ∨ f = k) := by
  intro xs
  induction xs with
  | nil => simp [dictSet, eq_comm]
  | cons p rest ih =>
    by_cases hp : (p.1 == k)
    · have hp1 : p.1 = k := by simpa using hp
      rw [dictSet, if_pos hp]
      simp only [List.map_cons, List.mem_cons]
      constructor
      · rintro (h | h)
        · exact Or.inr h
        · exact Or.inl (Or.inr h)
      · rintro ((h | h) | h)
        · exact Or.inl (h.trans hp1)
        · exact Or.inr h
        · exact Or.inl h
    · rw [dictSet, if_neg hp]
      simp only [List.map_cons, List.mem_cons, ih]
      tauto

lemma not_mem_keys_dictSet {α : Type} (k f : String) (v : α) (hfk : f ≠ k) :
    ∀ xs : List (String × α), f ∉ xs.map Prod.fst → f ∉ (dictSet xs k v).map Prod.fst := by
  intro xs hf hmem
  rcases (mem_keys_dictSet k f v xs).mp hmem with h | h
  · exact hf h
  · exact hfk h

lemma not_mem_keys_dictRemove_of {α : Type} (k f : String) :
    ∀ xs : List (String × α), f ∉ xs.map Prod.fst → f ∉ (dictRemove xs k).map Prod.fst := by
  intro xs hf hmem
  obtain ⟨p, hp, hpe⟩ := List.mem_map.mp hmem
  exact hf (hpe ▸ List.mem_map_of_mem Prod.fst (List.mem_of_mem_filter hp))

lemma registerLoop_keeps_req (ii : Bool) (members : List String) (f : String) (t : PyTy) :
    ∀ (annos : List (String × PyTy)) (opt req : List (String × PyTy)) (ps : List String),
      f ∉ annos.map Prod.fst →
      (f, t) ∈ req → f ∉ opt.map Prod.fst →
      (f, t) ∈ (registerLoop ii members annos opt req ps).2.1 ∧
        f ∉ (registerLoop ii members annos opt req ps).1.map Prod.fst := by
  intro annos
  induction annos with
  | nil => intro opt req ps _ hreq hopt; exact ⟨hreq, hopt⟩
  | cons head rest ih =>
    obtain ⟨m, s⟩ := head
    intro opt req ps hf hreq hopt
    have hfm : f ≠ m := by
      intro hc
      exact hf (by simp [hc])
    have hf' : f ∉ rest.map Prod.fst := fun hc => hf (by simp [hc])
    by_cases h1 : pyStartsWith m "__"
    · rw [registerLoop, if_pos h1]
      exact ih opt req ps hf' hreq hopt
    · by_cases h2 : (pyStartsWith m "_" && ii)
      · rw [registerLoop, if_neg h1, if_pos h2]
        exact ih opt req ps hf' hreq hopt
      · by_cases h3 : members.contains m
        · rw [registerLoop, if_neg h1, if_neg h2, if_pos h3]
          exact ih (dictSet opt m s) (dictRemove req m) (ps ++ [m]) hf'
            ((mem_dictRemove_ne m f t hfm req).mpr hreq)
            (not_mem_keys_dictSet m f s hfm opt hopt)
        · rw [registerLoop, if_neg h1, if_neg h2, if_neg h3]
          exact ih (dictRemove opt m) (dictSet req m s) (ps ++ [m]) hf'
            ((mem_dictSet_ne m f s t hfm req).mpr hreq)
            (not_mem_keys_dictRemove_of m f opt hopt)

lemma registerLoop_keeps_opt (ii : Bool) (members : List String) (f : String) (t : PyTy) :
    ∀ (annos : List (String × PyTy)) (opt req : List (String × PyTy)) (ps : List String),
      f ∉ annos.map Prod.fst →
      (f, t) ∈ opt → f ∉ req.map Prod.fst →
      (f, t) ∈ (registerLoop ii members annos opt req ps).1 ∧
        f ∉ (registerLoop ii members annos opt req ps).2.1.map Prod.fst := by
  intro annos
  induction annos with
  | nil => intro opt req ps _ hopt hreq; exact ⟨hopt, hreq⟩
  | cons head rest ih =>
    obtain ⟨m, s⟩ := head
    intro opt req ps hf hopt hreq
    have hfm : f ≠ m := by
      intro hc
      exact hf (by simp [hc])
    have hf' : f ∉ rest.map Prod.fst := fun hc => hf (by simp [hc])
    by_cases h1 : pyStartsWith m "__"
    · rw [registerLoop, if_pos h1]
      exact ih opt req ps hf' hopt hreq
    · by_cases h2 : (pyStartsWith m "_" && ii)
      · rw [registerLoop, if_neg h1, if_pos h2]
        exact ih opt req ps hf' hopt hreq
      · by_cases h3 : members.contains m
        · rw [registerLoop, if_neg h1, if_neg h2, if_pos h3]
          exact ih (dictSet opt m s) (dictRemove req m) (ps ++ [m]) hf'
            ((mem_dictSet_ne m f s t hfm opt).mpr hopt)
            (not_mem_keys_dictRemove_of m f req hreq)
        · rw [registerLoop, if_neg h1, if_neg h2, if_neg h3]
          exact ih (dictRemove opt m) (dictSet req m s) (ps ++ [m]) hf'
            ((mem_dictRemove_ne m f t hfm opt).mpr hopt)
            (not_mem_keys_dictSet m f s hfm req hreq)

lemma registerLoop_classify (ii : Bool) (members : List String) (f : String) (t : PyTy) :
    ∀ (annos : List (String × PyTy)) (opt req : List (String × PyTy)) (ps : List String),
      (f, t) ∈ annos → (annos.map Prod.fst).Nodup →
      ¬(pyStartsWith f "__" = true) → ¬(pyStartsWith f "_" = true ∧ ii = true) →
      ((f ∉ members →
        (f, t) ∈ (registerLoop ii members annos opt req ps).2.1 ∧
          f ∉ (registerLoop ii members annos opt req ps).1.map Prod.fst) ∧
       (f ∈ members →
        (f, t) ∈ (registerLoop ii members annos opt req ps).1 ∧
          f ∉ (registerLoop ii members annos opt req ps).2.1.map Prod.fst)) := by
  intro annos
  induction annos with
  | nil => intro opt req ps hmem; exact absurd hmem (List.not_mem_nil _)
  | cons head rest ih =>
    obtain ⟨m, s⟩ := head
    intro opt req ps hmem hnd hs1 hs2
    have hnd2 : (m :: rest.map Prod.fst).Nodup := by simpa using hnd
    have hmnotin : m ∉ rest.map Prod.fst := (List.nodup_cons.mp hnd2).1
    have hnd' : (rest.map Prod.fst).Nodup := (List.nodup_cons.mp hnd2).2
    rcases List.mem_cons.mp hmem with hhead | htail
    · have hfm : f = m := congrArg Prod.fst hhead
      have hts : t = s := congrArg Prod.snd hhead
      subst hfm
      subst hts
      have h1 : ¬(pyStartsWith f "__" = true) := hs1
      have h2 : ¬(pyStartsWith f "_" && ii) = true := by
        intro hc
        rw [Bool.and_eq_true] at hc
        exact hs2 ⟨hc.1, hc.2⟩
      constructor
      · intro hnotmem
        have h3 : ¬(members.contains f = true) := by
          intro hc
          exact hnotmem (by simpa using hc)
        rw [registerLoop, if_neg h1, if_neg h2, if_neg h3]
        exact registerLoop_keeps_req ii members f t rest (dictRemove opt f)
          (dictSet req f t) (ps ++ [f]) hmnotin
          (mem_dictSet_self f t req) (not_mem_keys_dictRemove f opt)
      · intro hinmem
        have h3 : members.contains f = true := by simpa using hinmem
        rw [registerLoop, if_neg h1, if_neg h2, if_pos h3]
        exact registerLoop_keeps_opt ii members f t rest (dictSet opt f t)
          (dictRemove req f) (ps ++ [f]) hmnotin
          (mem_dictSet_self f t opt) (not_mem_keys_dictRemove f req)
    · have hfm : f ≠ m := by
        intro hc
        subst hc
        exact hmnotin (List.mem_map_of_mem Prod.fst htail)
      by_cases h1 : pyStartsWith m "__"
      · rw [registerLoop, if_pos h1]
        exact ih opt req ps htail hnd' hs1 hs2
      · by_cases h2 : (pyStartsWith m "_" && ii)
        · rw [registerLoop, if_neg h1, if_pos h2]
          exact ih opt req ps htail hnd' hs1 hs2
        · by_cases h3 : members.contains m
          · rw [registerLoop, if_neg h1, if_neg h2, if_pos h3]
            exact ih (dictSet opt m s) (dictRemove req m) (ps ++ [m]) htail hnd' hs1 hs2
          · rw [registerLoop, if_neg h1, if_neg h2, if_neg h3]
            exact ih (dictRemove opt m) (dictSet req m s) (ps ++ [m]) htail hnd' hs1 hs2

lemma dictSet_keys_nodup {α : Type} (k : String) (v : α) :
    ∀ xs : List (String × α), (xs.map Prod.fst).Nodup → ((dictSet xs k v).map Prod.fst).Nodup := by
  intro xs
  induction xs with
  | nil => intro _; simp [dictSet]
  | cons p rest ih =>
    intro hnd
    have hnd2 : (p.1 :: rest.map Prod.fst).Nodup := by simpa using hnd
    have hpn : p.1 ∉ rest.map Prod.fst := (List.nodup_cons.mp hnd2).1
    have hnd' : (rest.map Prod.fst).Nodup := (List.nodup_cons.mp hnd2).2
    by_cases hp : (p.1 == k)
    · have hp1 : p.1 = k := by simpa using hp
      rw [dictSet, if_pos hp]
      simp only [List.map_cons]
      exact List.nodup_cons.mpr ⟨hp1 ▸ hpn, hnd'⟩
    · have hp1 : ¬(p.1 = k) := by simpa using hp
      rw [dictSet, if_neg hp]
      simp only [List.map_cons]
      refine List.nodup_cons.mpr ⟨?_, ih hnd'⟩
      intro hc
      rcases (mem_keys_dictSet k p.1 v rest).mp hc with h | h
      · exact hpn h
      · exact hp1 h

lemma dictRemove_keys_nodup {α : Type} (k : String) :
    ∀ xs : List (String × α), (xs.map Prod.fst).Nodup → ((dictRemove xs k).map Prod.fst).Nodup := by
  intro xs hnd
  have hsub : List.Sublist (dictRemove xs k) xs := List.filter_sublist xs
  exact hnd.sublist (hsub.map Prod.fst)

lemma registerLoop_keys_nodup (ii : Bool) (members : List String) :
    ∀ (annos : List (String × PyTy)) (opt req : List (String × PyTy)) (ps : List String),
      (opt.map Prod.fst).Nodup → (req.map Prod.fst).Nodup →
      ((registerLoop ii members annos opt req ps).1.map Prod.fst).Nodup ∧
        ((registerLoop ii members annos opt req ps).2.1.map Prod.fst).Nodup := by
  intro annos
  induction annos with
  | nil => intro opt req ps h1 h2; exact ⟨h1, h2⟩
  | cons head rest ih =>
    obtain ⟨m, s⟩ := head
    intro opt req ps h1 h2
    by_cases hs1 : pyStartsWith m "__"
    · rw [registerLoop, if_pos hs1]
      exact ih opt req ps h1 h2
    · by_cases hs2 : (pyStartsWith m "_" && ii)
      · rw [registerLoop, if_neg hs1, if_pos hs2]
        exact ih opt req ps h1 h2
      · by_cases hs3 : members.contains m
        · rw [registerLoop, if_neg hs1, if_neg hs2, if_pos hs3]
          exact ih (dictSet opt m s) (dictRemove req m) (ps ++ [m])
            (dictSet_keys_nodup m s opt h1) (dictRemove_keys_nodup m req h2)
        · rw [registerLoop, if_neg hs1, if_neg hs2, if_neg hs3]
          exact ih (dictRemove opt m) (dictSet req m s) (ps ++ [m])
            (dictRemove_keys_nodup m opt h1) (dictSet_keys_nodup m s req h2)

lemma registerClass_req_nodup (ii ie gr : Bool) (annos : List (String × PyTy))
    (members : List String) :
    ((registerClass ii ie gr annos members).requiredParams.map Prod.fst).Nodup :=
  (registerLoop_keys_nodup ii members annos [] [] [] (by simp) (by simp)).2

lemma registerClass_opt_nodup (ii ie gr : Bool) (annos : List (String × PyTy))
    (members : List String) :
    ((registerClass ii ie gr annos members).optionalParams.map Prod.fst).Nodup :=
  (registerLoop_keys_nodup ii members annos [] [] [] (by simp) (by simp)).1

lemma registerClass_required_of (ii ie gr : Bool) (annos : List (String × PyTy))
    (members : List String) (f : String) (t : PyTy)
    (hmem : (f, t) ∈ annos) (hnd : (annos.map Prod.fst).Nodup)
    (hs1 : ¬(pyStartsWith f "__" = true)) (hs2 : ¬(pyStartsWith f "_" = true ∧ ii = true))
    (hnm : f ∉ members) :
    (f, t) ∈ (registerClass ii ie gr annos members).requiredParams ∧
      f ∉ (registerClass ii ie gr annos members).optionalParams.map Prod.fst :=
  (registerLoop_classify ii members f t annos [] [] [] hmem hnd hs1 hs2).1 hnm

lemma registerClass_optional_of (ii ie gr : Bool) (annos : List (String × PyTy))
    (members : List String) (f : String) (t : PyTy)
    (hmem : (f, t) ∈ annos) (hnd : (annos.map Prod.fst).Nodup)
    (hs1 : ¬(pyStartsWith f "__" = true)) (hs2 : ¬(pyStartsWith f "_" = true ∧ ii = true))
    (hm : f ∈ members) :
    (f, t) ∈ (registerClass ii ie gr annos members).optionalParams ∧
      f ∉ (registerClass ii ie gr annos members).requiredParams.map Prod.fst :=
  (registerLoop_classify ii members f t annos [] [] [] hmem hnd hs1 hs2).2 hm


lemma lookup_dictSet {α : Type} (k m : String) (v : α) :
    ∀ xs : List (String × α),
      List.lookup m (dictSet xs k v) = if m = k then some v else List.lookup m xs := by
  intro xs
  induction xs with
  | nil =>
    by_cases hm : m = k
    · simp [dictSet, List.lookup, hm]
    · have hbe : (m == k) = false := by simp [hm]
      simp [dictSet, List.lookup, hbe, hm]
  | cons p rest ih =>
    by_cases hp : (p.1 == k)
    · have hp1 : p.1 = k := by simpa using hp
      rw [dictSet, if_pos hp]
      by_cases hm : m = k
      · subst hm
        simp [List.lookup]
      · have hbe : (m == k) = false := by simp [hm]
        have hbp : (m == p.1) = false := by simp [hp1, hm]
        simp [List.lookup, hbe, hbp, hm]
    · have hp1 : ¬(p.1 = k) := by simpa using hp
      rw [dictSet, if_neg hp]
      by_cases hmp : (m == p.1)
      · have hmp1 : m = p.1 := by simpa using hmp
        have hm : ¬(m = k) := fun hc => hp1 (hmp1 ▸ hc)
        simp [List.lookup, hmp, hm]
      · have hbp : (m == p.1) = false := by simpa using hmp
        simp only [List.lookup, hbp]
        exact ih

lemma exists_mem_cons_ne (f m : String) (s : PyTy) (rest : List (String × PyTy)) (hfm : f ≠ m) :
    (∃ t, (f, t) ∈ (m, s) :: rest) ↔ (∃ t, (f, t) ∈ rest) := by
  constructor
  · rintro ⟨t, ht⟩
    rcases List.mem_cons.mp ht with h | h
    · exact absurd (congrArg Prod.fst h) (by simpa using hfm)
    · exact ⟨t, h⟩
  · rintro ⟨t, ht⟩
    exact ⟨t, List.mem_cons_of_mem _ ht⟩

lemma registerLoop_params_mem (ii : Bool) (members : List String) (f : String) :
    ∀ (annos : List (String × PyTy)) (opt req : List (String × PyTy)) (ps : List String),
      (f ∈ (registerLoop ii members annos opt req ps).2.2 ↔
        f ∈ ps ∨ ((∃ t, (f, t) ∈ annos) ∧ ¬(pyStartsWith f "__" = true) ∧
          ¬(pyStartsWith f "_" = true ∧ ii = true))) := by
  intro annos
  induction annos with
  | nil =>
    intro opt req ps
    simp [registerLoop]
  | cons head rest ih =>
    obtain ⟨m, s⟩ := head
    intro opt req ps
    by_cases h1 : pyStartsWith m "__" = true
    · rw [registerLoop, if_pos h1]
      by_cases hfm : f = m
      · subst hfm
        rw [ih]
        simp [h1]
      · rw [ih, exists_mem_cons_ne f m s rest hfm]
    · by_cases h2 : (pyStartsWith m "_" && ii) = true
      · rw [registerLoop, if_neg h1, if_pos h2]
        by_cases hfm : f = m
        · subst hfm
          rw [ih]
          rw [Bool.and_eq_true] at h2
          simp [h2.1, h2.2]
        · rw [ih, exists_mem_cons_ne f m s rest hfm]
      · by_cases h3 : members.contains m = true
        · rw [registerLoop, if_neg h1, if_neg h2, if_pos h3]
          by_cases hfm : f = m
          · subst hfm
            rw [ih]
            have hc2 : ¬(pyStartsWith f "_" = true ∧ ii = true) := by
              intro hc
              exact h2 (by rw [Bool.and_eq_true]; exact hc)
            constructor
            · intro _
              exact Or.inr ⟨⟨s, List.mem_cons_self _ _⟩, h1, hc2⟩
            · intro _
              exact Or.inl (List.mem_append_right ps (by simp))
          · rw [ih, exists_mem_cons_ne f m s rest hfm]
            simp only [List.mem_append, List.mem_singleton, hfm, or_false]
        · rw [registerLoop, if_neg h1, if_neg h2, if_neg h3]
          by_cases hfm : f = m
          · subst hfm
            rw [ih]
            have hc2 : ¬(pyStartsWith f "_" = true ∧ ii = true) := by
              intro hc
              exact h2 (by rw [Bool.and_eq_true]; exact hc)
            constructor
            · intro _
              exact Or.inr ⟨⟨s, List.mem_cons_self _ _⟩, h1, hc2⟩
            · intro _
              exact Or.inl (List.mem_append_right ps (by simp))
          · rw [ih, exists_mem_cons_ne f m s rest hfm]
            simp only [List.mem_append, List.mem_singleton, hfm, or_false]

lemma applyFTO_optional_pair (owner fname : String) (v : PyVal) (a : PyTy) (hv : v ≠ PyVal.vnone) :
    applyFromTypingOrigin owner fname v (.union [a, .plain .noneType]) =
      (match isinstanceTy v a with
       | .ok true => .ok v
       | .ok false => .error (.optionalMismatch owner fname a (classOf v))
       | .error e => .error e) := by
  cases v with
  | vnone => exact absurd rfl hv
  | vbool b => rfl
  | vint n => rfl
  | vstr s => rfl
  | vclass c => rfl
  | vty t => rfl

lemma applyAttr_plain_eq (owner fname : String) (v : PyVal) (c : PyClass) :
    applyAttr owner fname v (.plain c) =
      (match isinstanceTy v (.plain c) with
       | .ok true => .ok v
       | .ok false => .error (.plainMismatch owner fname (.plain c) (classOf v))
       | .error e => .error e) := rfl

lemma pyOptional_plain_ne (c : PyClass) (hc : c ≠ PyClass.noneType) :
    pyOptional (.plain c) = .union [.plain c, .plain .noneType] := by
  cases c <;> first | (exact absurd rfl hc) | rfl

lemma optional_plain_agree (owner fname : String) (v : PyVal) (hv : v ≠ PyVal.vnone)
    (c : PyClass) :
    isOkE (applyAttr owner fname v (pyOptional (.plain c)))
      = isOkE (applyAttr owner fname v (.plain c)) := by
  by_cases hc : c = PyClass.noneType
  · subst hc
    rfl
  · rw [pyOptional_plain_ne c hc]
    have hdisp : applyAttr owner fname v (.union [.plain c, .plain .noneType])
        = applyFromTypingOrigin owner fname v (.union [.plain c, .plain .noneType]) := rfl
    rw [hdisp, applyFTO_optional_pair owner fname v (.plain c) hv,
        applyAttr_plain_eq owner fname v c]
    cases hb : isinstanceTy v (.plain c) with
    | ok b => cases b <;> rfl
    | error e => rfl

lemma optional_plain_none_ok (owner fname : String) (c : PyClass) :
    applyAttr owner fname PyVal.vnone (pyOptional (.plain c)) = .ok .vnone := by
  by_cases hc : c = PyClass.noneType
  · subst hc
    rfl
  · rw [pyOptional_plain_ne c hc]
    rfl

lemma isSubclass_noneType_false (v : PyVal) (hv : v ≠ PyVal.vnone) :
    isSubclass (classOf v) PyClass.noneType = false := by
  cases v with
  | vnone => exact absurd rfl hv
  | vbool b => rfl
  | vint n => rfl
  | vstr s => rfl
  | vclass c => rfl
  | vty t => rfl

lemma unionLoop_append_none (owner fname : String) (v : PyVal) (hv : v ≠ PyVal.vnone)
    (all1 all2 : List PyTy) :
    ∀ rem : List PyTy,
      isOkE (unionLoop owner fname v all2 (rem ++ [.plain .noneType]))
        = isOkE (unionLoop owner fname v all1 rem) := by
  intro rem
  induction rem with
  | nil =>
    simp only [List.nil_append, unionLoop, getOrigin, isinstanceTy,
      isSubclass_noneType_false v hv, isOkE]
  | cons t rest ih =>
    cases t with
    | plain c =>
      simp only [List.cons_append, unionLoop, getOrigin, isinstanceTy]
      cases hb : isSubclass (classOf v) c with
      | true => rfl
      | false => exact ih
    | anyTy =>
      simp only [List.cons_append, unionLoop, getOrigin, isinstanceTy]
    | union args2 =>
      simp only [List.cons_append, unionLoop, getOrigin]
      cases h : applyFromTypingOrigin owner fname v (.union args2) with
      | ok w => rfl
      | error e => exact ih
    | literal ls =>
      simp only [List.cons_append, unionLoop, getOrigin]
      cases h : applyFromTypingOrigin owner fname v (.literal ls) with
      | ok w => rfl
      | error e => exact ih
    | subtype c =>
      simp only [List.cons_append, unionLoop, getOrigin]
      cases h : applyFromTypingOrigin owner fname v (.subtype c) with
      | ok w => rfl
      | error e => exact ih
    | otherOrigin tag =>
      simp only [List.cons_append, unionLoop, getOrigin]
      cases h : applyFromTypingOrigin owner fname v (.otherOrigin tag) with
      | ok w => rfl
      | error e => exact ih

lemma optional_union_agree (owner fname : String) (v : PyVal) (hv : v ≠ PyVal.vnone)
    (args : List PyTy) (hlen : 2 ≤ args.length) :
    isOkE (applyAttr owner fname v (pyOptional (.union args)))
      = isOkE (applyAttr owner fname v (.union args)) := by
  by_cases hany : args.any isNoneTy
  · have : pyOptional (.union args) = .union args := by
      simp [pyOptional, hany]
    rw [this]
  · have hpo : pyOptional (.union args) = .union (args ++ [.plain .noneType]) := by
      simp [pyOptional, hany]
    rw [hpo]
    match args, hlen with
    | a :: b :: rest, _ =>
      have hshape : rest = [] → b ≠ PyTy.plain PyClass.noneType := by
        intro hrest hb
        subst hrest
        subst hb
        simp [isNoneTy] at hany
      have hshape2 : (rest ++ [PyTy.plain PyClass.noneType]) = [] →
          b ≠ PyTy.plain PyClass.noneType := by
        intro hc
        exact absurd hc (by simp)
      have hconv : ∀ xs : List PyTy,
          applyAttr owner fname v (.union xs) = applyFromTypingOrigin owner fname v (.union xs) :=
        fun _ => rfl
      have hd1 : applyAttr owner fname v (.union (a :: b :: rest))
          = unionLoop owner fname v (a :: b :: rest) (a :: b :: rest) :=
        (hconv _).trans (applyFTO_union_general owner fname v a b rest hshape)
      have hd2 : applyAttr owner fname v (.union (a :: b :: (rest ++ [.plain .noneType])))
          = unionLoop owner fname v (a :: b :: (rest ++ [.plain .noneType]))
              (a :: b :: (rest ++ [.plain .noneType])) :=
        (hconv _).trans
          (applyFTO_union_general owner fname v a b (rest ++ [.plain .noneType]) hshape2)
      have hl : (a :: b :: rest) ++ [PyTy.plain PyClass.noneType]
          = a :: b :: (rest ++ [.plain .noneType]) := by simp
      rw [hl, hd2, hd1]
      have := unionLoop_append_none owner fname v hv
        (a :: b :: rest) (a :: b :: (rest ++ [.plain .noneType])) (a :: b :: rest)
      rw [← this]
      simp

lemma map_isEmpty_false (l : List (String × PyTy)) (h : l.isEmpty = false) :
    (l.map Prod.fst).isEmpty = false := by
  cases l with
  | nil => simp at h
  | cons p rest => simp

lemma prepare_missing_aggregate (owner : String) (opts : TCOptions)
    (kwargs : List (String × PyVal))
    (hnd : (opts.requiredParams.map Prod.fst).Nodup)
    (hok : ∀ p ∈ opts.requiredParams, suppliedOk owner kwargs p = true)
    (hne : (opts.requiredParams.filter (fun p => (List.lookup p.1 kwargs).isNone)).isEmpty = false) :
    prepareTypedInstance owner opts kwargs
      = .error (.missingParams owner
          ((opts.requiredParams.filter
            (fun p => (List.lookup p.1 kwargs).isNone)).map Prod.fst)) := by
  obtain ⟨asg2, heq, _⟩ := requiredLoop_ok owner opts.requiredParams kwargs [] [] hnd hok
  have hmape : ((opts.requiredParams.filter
      (fun p => (List.lookup p.1 kwargs).isNone)).map Prod.fst).isEmpty = false :=
    map_isEmpty_false _ hne
  rw [prepareTypedInstance, heq]
  simp only [List.nil_append, hmape, Bool.false_eq_true, if_false]

lemma prepare_fail_fast (owner : String) (opts : TCOptions)
    (kwargs : List (String × PyVal)) (pre : List (String × PyTy)) (n : String) (t : PyTy)
    (post : List (String × PyTy)) (v : PyVal) (e : TCError)
    (hreq : opts.requiredParams = pre ++ (n, t) :: post)
    (hnd : (opts.requiredParams.map Prod.fst).Nodup)
    (hpre : ∀ p ∈ pre, suppliedOk owner kwargs p = true)
    (hl : List.lookup n kwargs = some v)
    (haa : applyAttr owner n v t = .error e) :
    prepareTypedInstance owner opts kwargs = .error e := by
  have herr := requiredLoop_err owner pre n t post kwargs [] [] v e
    (by rw [← hreq]; exact hnd) hpre hl haa
  rw [prepareTypedInstance, hreq, herr]

lemma prepare_reaches_extras (owner : String) (opts : TCOptions)
    (kwargs : List (String × PyVal))
    (hndR : (opts.requiredParams.map Prod.fst).Nodup)
    (hndO : (opts.optionalParams.map Prod.fst).Nodup)
    (hdisj : ∀ f ∈ opts.optionalParams.map Prod.fst, f ∉ opts.requiredParams.map Prod.fst)
    (hsupR : ∀ p ∈ opts.requiredParams, suppliedOk owner kwargs p = true)
    (hallR : ∀ p ∈ opts.requiredParams, (List.lookup p.1 kwargs).isSome = true)
    (hsupO : ∀ p ∈ opts.optionalParams, suppliedOk owner kwargs p = true) :
    ∃ asg,
      prepareTypedInstance owner opts kwargs =
        (if (kwargs.filter (fun q =>
              !((opts.requiredParams.map Prod.fst).contains q.1)
              && !((opts.optionalParams.map Prod.fst).contains q.1))).isEmpty then .ok asg
         else if opts.ignoreExtra then .ok asg
         else .error (.unexpectedParams owner
            ((kwargs.filter (fun q =>
              !((opts.requiredParams.map Prod.fst).contains q.1)
              && !((opts.optionalParams.map Prod.fst).contains q.1))).map Prod.fst)))
      ∧ ∀ q ∈ asg, q.1 ∈ opts.requiredParams.map Prod.fst
          ∨ q.1 ∈ opts.optionalParams.map Prod.fst := by
  obtain ⟨asgR, heqR, hnamesR⟩ := requiredLoop_ok owner opts.requiredParams kwargs [] [] hndR hsupR
  have hmiss : (opts.requiredParams.filter (fun p => (List.lookup p.1 kwargs).isNone)) = [] := by
    apply List.filter_eq_nil_iff.mpr
    intro p hp
    have := hallR p hp
    cases hh : List.lookup p.1 kwargs with
    | none => rw [hh] at this; simp at this
    | some w => simp [hh]
  have hsupO' : ∀ p ∈ opts.optionalParams,
      suppliedOk owner
        (kwargs.filter (fun q => !((opts.requiredParams.map Prod.fst).contains q.1))) p = true := by
    intro p hp
    have hpn : p.1 ∉ opts.requiredParams.map Prod.fst :=
      hdisj p.1 (List.mem_map_of_mem Prod.fst hp)
    have hcont : ((opts.requiredParams.map Prod.fst).contains p.1) = false := by
      by_contra hc
      simp only [Bool.not_eq_false] at hc
      exact hpn (by simpa using hc)
    have hlk : List.lookup p.1
        (kwargs.filter (fun q => !((opts.requiredParams.map Prod.fst).contains q.1)))
        = List.lookup p.1 kwargs := by
      rw [lookup_filterKeys (fun x => !((opts.requiredParams.map Prod.fst).contains x)) p.1 kwargs,
        hcont]
      rfl
    rw [suppliedOk, hlk]
    have := hsupO p hp
    rw [suppliedOk] at this
    exact this
  obtain ⟨asgO, heqO, hnamesO⟩ := optionalLoop_ok owner opts.optionalParams
    (kwargs.filter (fun q => !((opts.requiredParams.map Prod.fst).contains q.1))) asgR hndO hsupO'
  refine ⟨asgR ++ asgO, ?_, ?_⟩
  · rw [prepareTypedInstance, heqR]
    simp only [List.nil_append, hmiss, List.map_nil, List.isEmpty_nil, if_true]
    rw [heqO]
    have hff : (kwargs.filter (fun q => !((opts.requiredParams.map Prod.fst).contains q.1))).filter
          (fun q => !((opts.optionalParams.map Prod.fst).contains q.1))
        = kwargs.filter (fun q =>
            !((opts.requiredParams.map Prod.fst).contains q.1)
            && !((opts.optionalParams.map Prod.fst).contains q.1)) := by
      rw [List.filter_filter]
      apply List.filter_congr
      intro q _
      exact Bool.and_comm _ _
    rw [hff]
  · intro q hq
    rcases List.mem_append.mp hq with h | h
    · left
      have hq1 : q.1 ∈ asgR.map Prod.fst := List.mem_map_of_mem Prod.fst h
      rw [hnamesR] at hq1
      have hsub : List.Sublist
          ((opts.requiredParams.filter
            (fun p => (List.lookup p.1 kwargs).isSome)).map Prod.fst)
          (opts.requiredParams.map Prod.fst) :=
        (List.filter_sublist _).map Prod.fst
      exact hsub.subset hq1
    · right
      have hq1 : q.1 ∈ asgO.map Prod.fst := List.mem_map_of_mem Prod.fst h
      rw [hnamesO] at hq1
      have hsub : List.Sublist
          ((opts.optionalParams.filter
            (fun p => (List.lookup p.1 (kwargs.filter (fun q =>
              !((opts.requiredParams.map Prod.fst).contains q.1)))).isSome)).map Prod.fst)
          (opts.optionalParams.map Prod.fst) :=
        (List.filter_sublist _).map Prod.fst
      exact hsub.subset hq1

/-- Claim C1, counterexample: the claim says every Union tries its branches
in declared order and accepts on the first branch that accepts, treating a
raising branch as a non-match.  For Union[Literal[1], None] (the two-member
Optional surface form) and value 1 the first branch alone accepts, yet the
matcher rejects: the union is routed to the Optional handler whose bare
isinstance call on the Literal subscript raises and propagates. -/
theorem claim1_counterexample :
    applyAttr "User" "f" (.vint 1) (.union [.literal [.lint 1], .plain .noneType])
        = .error (.isinstanceRaised (.literal [.lint 1]))
    ∧ applyAttr "User" "f" (.vint 1) (.literal [.lint 1]) = .ok (.vty (.literal [.lint 1])) :=
  ⟨rfl, rfl⟩

/-- Claim C1, amended: for a union handled by the general union path (not
the two-member form ending in NoneType) whose members are all plain classes
or generic-origin constraints (no bare typing.Any member), the matcher
tries the branches in declared order, accepts on the first accepting branch
with that branch's assigned value, treats a raising generic-origin branch
as a non-match, and if no branch accepts fails with the aggregate error
naming all attempted branch types and the value's runtime class. -/
theorem claim1_union_order (owner fname : String) (v : PyVal) (a b : PyTy) (rest : List PyTy)
    (hshape : rest = [] → b ≠ PyTy.plain PyClass.noneType)
    (hkinds : ∀ t ∈ a :: b :: rest, t ≠ PyTy.anyTy) :
    ((∀ t ∈ a :: b :: rest, branchOk owner fname v t = false) →
      applyFromTypingOrigin owner fname v (.union (a :: b :: rest))
        = .error (.unionMismatch owner fname (a :: b :: rest) (classOf v)))
    ∧ (∀ (pre : List PyTy) (t : PyTy) (post : List PyTy),
        a :: b :: rest = pre ++ t :: post →
        (∀ u ∈ pre, branchOk owner fname v u = false) →
        branchOk owner fname v t = true →
        applyFromTypingOrigin owner fname v (.union (a :: b :: rest))
          = .ok (branchVal owner fname v t)) := by
  constructor
  · intro hrej
    rw [applyFTO_union_general owner fname v a b rest hshape]
    exact unionLoop_reject owner fname v (a :: b :: rest) (a :: b :: rest) hkinds hrej
  · intro pre t post hsplit hprerej hok
    rw [applyFTO_union_general owner fname v a b rest hshape, hsplit]
    apply unionLoop_firstOk
    · intro u hu
      apply hkinds
      rw [hsplit]
      exact List.mem_append_left _ hu
    · exact hprerej
    · exact hok

/-- Claim C1, witness: a three-member union accepts a string through its
third branch after the first two cleanly reject, and rejects None with the
aggregate error naming all three members. -/
theorem claim1_witness :
    applyFromTypingOrigin "User" "f" (.vstr "x")
        (.union [.plain .intC, .literal [.lint 5], .plain .strC]) = .ok (.vstr "x")
    ∧ applyFromTypingOrigin "User" "f" .vnone
        (.union [.plain .intC, .literal [.lint 5], .plain .strC])
        = .error (.unionMismatch "User" "f"
            [.plain .intC, .literal [.lint 5], .plain .strC] .noneType) := by
  constructor
  · exact (claim1_union_order "User" "f" (.vstr "x") (.plain .intC) (.literal [.lint 5])
      [.plain .strC] (fun h => absurd h (by simp))
      (by intro t ht; fin_cases ht <;> simp)).2
      [.plain .intC, .literal [.lint 5]] (.plain .strC) [] rfl (by decide) (by decide)
  · exact (claim1_union_order "User" "f" .vnone (.plain .intC) (.literal [.lint 5])
      [.plain .strC] (fun h => absurd h (by simp))
      (by intro t ht; fin_cases ht <;> simp)).1 (by decide)

/-- Claim C2, counterexample: matching 2 against Optional(Literal[2]) does
not give the outcome of matching 2 against Literal[2]: the Literal alone
accepts 2, but the Optional handler runs a bare isinstance on the Literal
subscript, which raises, so every non-None value is rejected. -/
theorem claim2_counterexample :
    applyAttr "M" "g" (.vint 2) (pyOptional (.literal [.lint 2]))
        = .error (.isinstanceRaised (.literal [.lint 2]))
    ∧ applyAttr "M" "g" (.vint 2) (.literal [.lint 2]) = .ok (.vty (.literal [.lint 2]))
    ∧ isOkE (applyAttr "M" "g" (.vint 2) (pyOptional (.literal [.lint 2])))
        ≠ isOkE (applyAttr "M" "g" (.vint 2) (.literal [.lint 2])) :=
  ⟨rfl, rfl, by decide⟩

/-- Claim C2, amended: Optional(C) agrees with C alone on every non-None
value when C is a plain concrete class (and None is then always accepted
immediately), and likewise when C is a Union of at least two members
(whose flattening appends NoneType to the general union path); but not for
subscripted-generic C such as a Literal or a SubtypeOf constraint, where
the Optional handler's bare instance check raises. -/
theorem claim2_optional_delegation :
    (∀ (owner fname : String) (v : PyVal) (c : PyClass), v ≠ PyVal.vnone →
      isOkE (applyAttr owner fname v (pyOptional (.plain c)))
        = isOkE (applyAttr owner fname v (.plain c)))
    ∧ (∀ (owner fname : String) (c : PyClass),
        applyAttr owner fname PyVal.vnone (pyOptional (.plain c)) = .ok .vnone)
    ∧ (∀ (owner fname : String) (v : PyVal) (args : List PyTy), v ≠ PyVal.vnone →
        2 ≤ args.length →
        isOkE (applyAttr owner fname v (pyOptional (.union args)))
          = isOkE (applyAttr owner fname v (.union args))) :=
  ⟨fun owner fname v c hv => optional_plain_agree owner fname v hv c,
   fun owner fname c => optional_plain_none_ok owner fname c,
   fun owner fname v args hv hlen => optional_union_agree owner fname v hv args hlen⟩

/-- Claim C2, witness: the agreement at concrete inputs, including the
bool-through-int union member accepted on both sides. -/
theorem claim2_witness :
    isOkE (applyAttr "M" "g" (.vint 3) (pyOptional (.plain .intC)))
      = isOkE (applyAttr "M" "g" (.vint 3) (.plain .intC))
    ∧ applyAttr "M" "g" .vnone (pyOptional (.plain .strC)) = .ok .vnone
    ∧ isOkE (applyAttr "M" "g" (.vbool true) (pyOptional (.union [.plain .intC, .plain .strC])))
      = isOkE (applyAttr "M" "g" (.vbool true) (.union [.plain .intC, .plain .strC])) :=
  ⟨claim2_optional_delegation.1 "M" "g" (.vint 3) .intC (by simp),
   claim2_optional_delegation.2.1 "M" "g" .strC,
   claim2_optional_delegation.2.2 "M" "g" (.vbool true) [.plain .intC, .plain .strC]
     (by simp) (by simp)⟩

/-- Claim C3 (code bug): a field declared Literal[1, 2, 3] supplied with
the identity-matching value 1 constructs successfully, but the instance
attribute afterwards holds the Literal descriptor itself rather than the
supplied value: the source executes setattr(tc, name, tp) instead of
setattr(tc, name, val) in the Literal branch. -/
theorem claim3_literal_assigns_descriptor :
    prepareTypedInstance "A"
        (registerClass true false true [("f", .literal [.lint 1, .lint 2, .lint 3])] [])
        [("f", .vint 1)]
      = .ok [("f", .vty (.literal [.lint 1, .lint 2, .lint 3]))]
    ∧ PyVal.vty (.literal [.lint 1, .lint 2, .lint 3]) ≠ PyVal.vint 1 := by
  refine ⟨by rfl, ?_⟩
  intro h
  cases h

/-- Claim C4 (confirmed): during construction the aggregate
missing-required error is raised only after apply_attr has been attempted
on every supplied required argument, collecting all absent names; and a
failing supplied required value raises its type error immediately, for the
first failing field in declaration order, pre-empting any missing-fields
error for that call. -/
theorem claim4_missing_after_validation :
    (∀ (owner : String) (opts : TCOptions) (kwargs : List (String × PyVal)),
      (opts.requiredParams.map Prod.fst).Nodup →
      (∀ p ∈ opts.requiredParams, suppliedOk owner kwargs p = true) →
      (opts.requiredParams.filter (fun p => (List.lookup p.1 kwargs).isNone)).isEmpty = false →
      prepareTypedInstance owner opts kwargs
        = .error (.missingParams owner
            ((opts.requiredParams.filter
              (fun p => (List.lookup p.1 kwargs).isNone)).map Prod.fst)))
    ∧ (∀ (owner : String) (opts : TCOptions) (kwargs : List (String × PyVal))
        (pre : List (String × PyTy)) (n : String) (t : PyTy) (post : List (String × PyTy))
        (v : PyVal) (e : TCError),
      opts.requiredParams = pre ++ (n, t) :: post →
      (opts.requiredParams.map Prod.fst).Nodup →
      (∀ p ∈ pre, suppliedOk owner kwargs p = true) →
      List.lookup n kwargs = some v →
      applyAttr owner n v t = .error e →
      prepareTypedInstance owner opts kwargs = .error e) :=
  ⟨fun owner opts kwargs hnd hok hne =>
    prepare_missing_aggregate owner opts kwargs hnd hok hne,
   fun owner opts kwargs pre n t post v e hreq hnd hpre hl haa =>
    prepare_fail_fast owner opts kwargs pre n t post v e hreq hnd hpre hl haa⟩

/-- Claim C4, witness: the section 8 scenario: User(name=a) collects the
missing name id into the aggregate error after validating name; and
User(id=1-as-string) raises the type mismatch for id immediately even
though name is also missing. -/
theorem claim4_witness :
    prepareTypedInstance "User"
        (registerClass true false true
          [("id", PyTy.plain .intC), ("name", PyTy.plain .strC)] [])
        [("name", .vstr "a")]
      = .error (.missingParams "User" ["id"])
    ∧ prepareTypedInstance "User"
        (registerClass true false true
          [("id", PyTy.plain .intC), ("name", PyTy.plain .strC)] [])
        [("id", .vstr "1")]
      = .error (.plainMismatch "User" "id" (.plain .intC) .strC) :=
  ⟨claim4_missing_after_validation.1 "User"
      (registerClass true false true
        [("id", PyTy.plain .intC), ("name", PyTy.plain .strC)] [])
      [("name", .vstr "a")] (by decide) (by decide) (by decide),
   claim4_missing_after_validation.2 "User"
      (registerClass true false true
        [("id", PyTy.plain .intC), ("name", PyTy.plain .strC)] [])
      [("id", .vstr "1")] [] "id" (PyTy.plain .intC) [("name", PyTy.plain .strC)]
      (.vstr "1") (.plainMismatch "User" "id" (.plain .intC) .strC)
      (by rfl) (by decide) (by simp) (by rfl) (by rfl)⟩

/-- Claim C5 (confirmed): when construction reaches the extras check (all
required names supplied and every supplied value valid), leftover keyword
arguments that match no declared field raise the aggregate
unexpected-parameters error naming every such name when ignore_extra is
false; when ignore_extra is true construction succeeds and the performed
assignments cover only declared required or optional names, so the extras
are never assigned. -/
theorem claim5_extra_params :
    (∀ (owner : String) (opts : TCOptions) (kwargs : List (String × PyVal)),
      (opts.requiredParams.map Prod.fst).Nodup →
      (opts.optionalParams.map Prod.fst).Nodup →
      (∀ f ∈ opts.optionalParams.map Prod.fst, f ∉ opts.requiredParams.map Prod.fst) →
      (∀ p ∈ opts.requiredParams, suppliedOk owner kwargs p = true) →
      (∀ p ∈ opts.requiredParams, (List.lookup p.1 kwargs).isSome = true) →
      (∀ p ∈ opts.optionalParams, suppliedOk owner kwargs p = true) →
      opts.ignoreExtra = false →
      (kwargs.filter (fun q =>
        !((opts.requiredParams.map Prod.fst).contains q.1)
        && !((opts.optionalParams.map Prod.fst).contains q.1))).isEmpty = false →
      prepareTypedInstance owner opts kwargs
        = .error (.unexpectedParams owner
            ((kwargs.filter (fun q =>
              !((opts.requiredParams.map Prod.fst).contains q.1)
              && !((opts.optionalParams.map Prod.fst).contains q.1))).map Prod.fst)))
    ∧ (∀ (owner : String) (opts : TCOptions) (kwargs : List (String × PyVal)),
      (opts.requiredParams.map Prod.fst).Nodup →
      (opts.optionalParams.map Prod.fst).Nodup →
      (∀ f ∈ opts.optionalParams.map Prod.fst, f ∉ opts.requiredParams.map Prod.fst) →
      (∀ p ∈ opts.requiredParams, suppliedOk owner kwargs p = true) →
      (∀ p ∈ opts.requiredParams, (List.lookup p.1 kwargs).isSome = true) →
      (∀ p ∈ opts.optionalParams, suppliedOk owner kwargs p = true) →
      opts.ignoreExtra = true →
      isOkE (prepareTypedInstance owner opts kwargs) = true
      ∧ ∀ asg, prepareTypedInstance owner opts kwargs = .ok asg →
          ∀ q ∈ asg, q.1 ∈ opts.requiredParams.map Prod.fst
            ∨ q.1 ∈ opts.optionalParams.map Prod.fst) := by
  constructor
  · intro owner opts kwargs hndR hndO hdisj hsupR hallR hsupO hie hne
    obtain ⟨asg, heq, _⟩ :=
      prepare_reaches_extras owner opts kwargs hndR hndO hdisj hsupR hallR hsupO
    rw [heq, if_neg (by rw [hne]; exact Bool.false_ne_true), if_neg (by rw [hie]; exact Bool.false_ne_true)]
  · intro owner opts kwargs hndR hndO hdisj hsupR hallR hsupO hie
    obtain ⟨asg, heq, hnames⟩ :=
      prepare_reaches_extras owner opts kwargs hndR hndO hdisj hsupR hallR hsupO
    constructor
    · rw [heq]
      by_cases hcase : (kwargs.filter (fun q =>
          !((opts.requiredParams.map Prod.fst).contains q.1)
          && !((opts.optionalParams.map Prod.fst).contains q.1))).isEmpty = true
      · rw [if_pos hcase]
        rfl
      · rw [if_neg hcase, if_pos hie]
        rfl
    · intro asg2 heq2 q hq
      rw [heq] at heq2
      by_cases hcase : (kwargs.filter (fun q =>
          !((opts.requiredParams.map Prod.fst).contains q.1)
          && !((opts.optionalParams.map Prod.fst).contains q.1))).isEmpty = true
      · rw [if_pos hcase] at heq2
        cases heq2
        exact hnames q hq
      · rw [if_neg hcase, if_pos hie] at heq2
        cases heq2
        exact hnames q hq

/-- Claim C5, witness: an undeclared keyword raises the aggregate error
naming it when ignore_extra is false, and with ignore_extra true the same
construction succeeds. -/
theorem claim5_witness :
    prepareTypedInstance "User"
        (registerClass true false true [("id", PyTy.plain .intC)] [])
        [("id", .vint 1), ("extra", .vint 5)]
      = .error (.unexpectedParams "User" ["extra"])
    ∧ isOkE (prepareTypedInstance "User"
        (registerClass true true true [("id", PyTy.plain .intC)] [])
        [("id", .vint 1), ("extra", .vint 5)]) = true :=
  ⟨claim5_extra_params.1 "User"
      (registerClass true false true [("id", PyTy.plain .intC)] [])
      [("id", .vint 1), ("extra", .vint 5)]
      (by decide) (by decide) (by decide) (by decide) (by decide) (by decide) rfl (by decide),
   (claim5_extra_params.2 "User"
      (registerClass true true true [("id", PyTy.plain .intC)] [])
      [("id", .vint 1), ("extra", .vint 5)]
      (by decide) (by decide) (by decide) (by decide) (by decide) (by decide) rfl).1⟩

/-- Claim C6, counterexample: the claim predicts that a name with a leading
double underscore but no trailing double underscore is registered when
ignore_internal is false; the code skips any name starting with a double
underscore, so the field is neither listed nor validated. -/
theorem claim6_counterexample :
    "__foo" ∉ (registerClass false false true [("__foo", PyTy.plain .intC)] []).params
    ∧ (registerClass false false true [("__foo", PyTy.plain .intC)] []).requiredParams = []
    ∧ (registerClass false false true [("__foo", PyTy.plain .intC)] []).optionalParams = []
    ∧ pyEndsWith "__foo" "__" = false := by
  refine ⟨by decide, by rfl, by rfl, by decide⟩

/-- Claim C6, amended: a declared field name is registered (appears in the
params list) exactly when it occurs among the declared fields, does not
start with a double underscore (regardless of any trailing underscores),
and does not start with a single underscore while ignore_internal is
true. -/
theorem claim6_skip_rule (ii ie gr : Bool) (annos : List (String × PyTy))
    (members : List String) (f : String) :
    f ∈ (registerClass ii ie gr annos members).params ↔
      ((∃ t, (f, t) ∈ annos) ∧ ¬(pyStartsWith f "__" = true) ∧
        ¬(pyStartsWith f "_" = true ∧ ii = true)) := by
  have h := registerLoop_params_mem ii members f annos [] [] []
  simpa [registerClass] using h

/-- Claim C7 (confirmed): a derivative that assigns a class-body default to
a field required in its base registers that field as optional (and not
required) in its own metadata, and registering the derivative rewrites only
the derivative's registry entry: the base class's stored metadata is
unchanged. -/
theorem claim7_subclass_demotes
    (reg : Registry) (baseName subName f : String) (t : PyTy)
    (iiB ieB grB iiS ieS grS : Bool)
    (annosB annosS : List (String × PyTy)) (membersB membersS : List String)
    (hbs : baseName ≠ subName)
    (hbase : f ∈ (registerClass iiB ieB grB annosB membersB).requiredParams.map Prod.fst)
    (hmem : (f, t) ∈ annosS) (hnd : (annosS.map Prod.fst).Nodup)
    (hs1 : ¬(pyStartsWith f "__" = true)) (hs2 : ¬(pyStartsWith f "_" = true ∧ iiS = true))
    (hm : f ∈ membersS) :
    (f, t) ∈ (registerClass iiS ieS grS annosS membersS).optionalParams
    ∧ f ∉ (registerClass iiS ieS grS annosS membersS).requiredParams.map Prod.fst
    ∧ List.lookup subName
        (initSubclass (initSubclass reg baseName iiB ieB grB annosB membersB)
          subName iiS ieS grS annosS membersS)
        = some (registerClass iiS ieS grS annosS membersS)
    ∧ List.lookup baseName
        (initSubclass (initSubclass reg baseName iiB ieB grB annosB membersB)
          subName iiS ieS grS annosS membersS)
        = List.lookup baseName (initSubclass reg baseName iiB ieB grB annosB membersB) := by
  have hcls := registerClass_optional_of iiS ieS grS annosS membersS f t hmem hnd hs1 hs2 hm
  refine ⟨hcls.1, hcls.2, ?_, ?_⟩
  · rw [initSubclass, lookup_dictSet]
    simp
  · rw [initSubclass, lookup_dictSet]
    simp [hbs]

/-- Claim C7, witness: a base with required field x and a derivative whose
body assigns x a default: x is optional and not required in the
derivative's metadata, and the base's registry entry is untouched. -/
theorem claim7_witness :
    ("x", PyTy.plain PyClass.intC)
        ∈ (registerClass true false true [("x", PyTy.plain .intC)] ["x"]).optionalParams
    ∧ "x" ∉ (registerClass true false true [("x", PyTy.plain .intC)] ["x"]).requiredParams.map
        Prod.fst
    ∧ List.lookup "Sub"
        (initSubclass (initSubclass [] "Base" true false true [("x", PyTy.plain .intC)] [])
          "Sub" true false true [("x", PyTy.plain .intC)] ["x"])
        = some (registerClass true false true [("x", PyTy.plain .intC)] ["x"])
    ∧ List.lookup "Base"
        (initSubclass (initSubclass [] "Base" true false true [("x", PyTy.plain .intC)] [])
          "Sub" true false true [("x", PyTy.plain .intC)] ["x"])
        = List.lookup "Base" (initSubclass [] "Base" true false true [("x", PyTy.plain .intC)] []) :=
  claim7_subclass_demotes [] "Base" "Sub" "x" (PyTy.plain .intC) true false true true false true
    [("x", PyTy.plain .intC)] [("x", PyTy.plain .intC)] [] ["x"]
    (by decide) (by decide) (by simp) (by decide) (by decide) (by decide) (by decide)

/-- Claim C8 (confirmed on the section 8 scenario): with repr generation
enabled, the User structure built from id=1 and name=a renders all
declared fields in declaration order with their current runtime values:
User(id=1, name='a', email=None), the absent optional email falling back
to its class-body default None. -/
theorem claim8_repr_scenario :
    prepareTypedInstance "User"
        (registerClass true false true
          [("id", PyTy.plain .intC), ("name", PyTy.plain .strC),
           ("email", pyOptional (.plain .strC))] ["email"])
        [("id", .vint 1), ("name", .vstr "a")]
      = .ok [("id", .vint 1), ("name", .vstr "a")]
    ∧ (registerClass true false true
        [("id", PyTy.plain .intC), ("name", PyTy.plain .strC),
         ("email", pyOptional (.plain .strC))] ["email"]).hasRepr = true
    ∧ (registerClass true false true
        [("id", PyTy.plain .intC), ("name", PyTy.plain .strC),
         ("email", pyOptional (.plain .strC))] ["email"]).params = ["id", "name", "email"]
    ∧ typedClassRepr "User"
        (registerClass true false true
          [("id", PyTy.plain .intC), ("name", PyTy.plain .strC),
           ("email", pyOptional (.plain .strC))] ["email"]).params
        [("id", .vint 1), ("name", .vstr "a")] [("email", .vnone)]
      = some "User(id=1, name=\x27a\x27, email=None)" :=
  ⟨by rfl, by rfl, by rfl, by rfl⟩

/-- Claim C9 (confirmed): a field annotated in the inherited hints but not
assigned in the derivative's own class body is classified required in the
derivative even if a base body supplied a default, and constructing the
derivative without supplying it fails with the aggregate missing-required
error containing that field. -/
theorem claim9_inherited_default_required
    (owner f : String) (t : PyTy) (annos : List (String × PyTy)) (members : List String)
    (ii ie gr : Bool) (kwargs : List (String × PyVal))
    (hmem : (f, t) ∈ annos) (hnd : (annos.map Prod.fst).Nodup)
    (hs1 : ¬(pyStartsWith f "__" = true)) (hs2 : ¬(pyStartsWith f "_" = true ∧ ii = true))
    (hnm : f ∉ members)
    (habs : List.lookup f kwargs = none)
    (hsup : ∀ p ∈ (registerClass ii ie gr annos members).requiredParams,
      suppliedOk owner kwargs p = true) :
    (f, t) ∈ (registerClass ii ie gr annos members).requiredParams
    ∧ prepareTypedInstance owner (registerClass ii ie gr annos members) kwargs
        = .error (.missingParams owner
            (((registerClass ii ie gr annos members).requiredParams.filter
              (fun p => (List.lookup p.1 kwargs).isNone)).map Prod.fst))
    ∧ f ∈ (((registerClass ii ie gr annos members).requiredParams.filter
          (fun p => (List.lookup p.1 kwargs).isNone)).map Prod.fst) := by
  have hreq := (registerClass_required_of ii ie gr annos members f t hmem hnd hs1 hs2 hnm).1
  have hfmem : (f, t) ∈ (registerClass ii ie gr annos members).requiredParams.filter
      (fun p => (List.lookup p.1 kwargs).isNone) := by
    refine List.mem_filter.mpr ⟨hreq, ?_⟩
    rw [habs]
    rfl
  have hfnames : f ∈ (((registerClass ii ie gr annos members).requiredParams.filter
      (fun p => (List.lookup p.1 kwargs).isNone)).map Prod.fst) :=
    List.mem_map_of_mem Prod.fst hfmem
  have hne : ((registerClass ii ie gr annos members).requiredParams.filter
      (fun p => (List.lookup p.1 kwargs).isNone)).isEmpty = false := by
    cases hh : (registerClass ii ie gr annos members).requiredParams.filter
        (fun p => (List.lookup p.1 kwargs).isNone) with
    | nil => rw [hh] at hfmem; exact absurd hfmem (List.not_mem_nil _)
    | cons a l => rfl
  exact ⟨hreq,
    prepare_missing_aggregate owner (registerClass ii ie gr annos members) kwargs
      (registerClass_req_nodup ii ie gr annos members) hsup hne,
    hfnames⟩

/-- Claim C9, witness: a field with a default only in the base body (so
absent from the derivative's own members) is required in the derivative,
and constructing the derivative without it raises the missing-parameters
error naming it. -/
theorem claim9_witness :
    ("x", PyTy.plain PyClass.intC)
        ∈ (registerClass true false true [("x", PyTy.plain .intC)] []).requiredParams
    ∧ prepareTypedInstance "Sub" (registerClass true false true [("x", PyTy.plain .intC)] []) []
        = .error (.missingParams "Sub" ["x"])
    ∧ "x" ∈ ((((registerClass true false true [("x", PyTy.plain .intC)] []).requiredParams.filter
          (fun p => (List.lookup p.1 ([] : List (String × PyVal))).isNone)).map Prod.fst)) := by
  have h := claim9_inherited_default_required "Sub" "x" (PyTy.plain .intC)
    [("x", PyTy.plain .intC)] [] true false true []
    (by simp) (by decide) (by decide) (by decide) (by decide) (by rfl) (by decide)
  exact ⟨h.1, h.2.1, h.2.2⟩

/-- Claim C10, counterexample: the claim predicts that any Union containing
an unsupported-origin branch (e.g. List[int]) accepts every value; for
Union[List[int], None] (the two-member Optional surface form) the value 5
is rejected: the Optional handler's bare isinstance on the subscripted
generic raises, even though the branch alone assigns unconditionally. -/
theorem claim10_counterexample :
    applyAttr "R" "h" (.vint 5) (.union [.otherOrigin "list", .plain .noneType])
        = .error (.isinstanceRaised (.otherOrigin "list"))
    ∧ applyAttr "R" "h" (.vint 5) (.otherOrigin "list") = .ok (.vint 5) :=
  ⟨rfl, rfl⟩

/-- Claim C10, amended: apply_attr assigns the supplied value
unconditionally for any unsupported-origin descriptor; and a union handled
by the general union path containing such a branch, with no bare
typing.Any member before it, accepts every value. -/
theorem claim10_permissive_origin :
    (∀ (owner fname : String) (v : PyVal) (tag : String),
      applyAttr owner fname v (.otherOrigin tag) = .ok v)
    ∧ (∀ (owner fname : String) (v : PyVal) (a b : PyTy) (rest pre post : List PyTy)
        (tag : String),
      (rest = [] → b ≠ PyTy.plain PyClass.noneType) →
      a :: b :: rest = pre ++ .otherOrigin tag :: post →
      (∀ u ∈ pre, u ≠ PyTy.anyTy) →
      isOkE (applyFromTypingOrigin owner fname v (.union (a :: b :: rest))) = true) := by
  constructor
  · intro owner fname v tag
    rfl
  · intro owner fname v a b rest pre post tag hshape hsplit hpre
    rw [applyFTO_union_general owner fname v a b rest hshape, hsplit]
    obtain ⟨w, hw⟩ := unionLoop_reachOk owner fname v (pre ++ .otherOrigin tag :: post)
      pre (.otherOrigin tag) post hpre rfl
    rw [hw]
    rfl

/-- Claim C10, witness: the unconditional assignment at a concrete value,
and a general-path union with a List-origin member accepting a string no
other member accepts. -/
theorem claim10_witness :
    applyAttr "R" "h" (.vstr "z") (.otherOrigin "list") = .ok (.vstr "z")
    ∧ isOkE (applyFromTypingOrigin "R" "h" (.vstr "q")
        (.union [.plain .intC, .otherOrigin "list"])) = true :=
  ⟨claim10_permissive_origin.1 "R" "h" (.vstr "z") "list",
   claim10_permissive_origin.2 "R" "h" (.vstr "q") (.plain .intC) (.otherOrigin "list")
     [] [.plain .intC] [] "list" (fun _ => by simp) rfl
     (by intro u hu; fin_cases hu <;> simp)⟩
